import Mathlib

/-!
# Anexia DNS provider: shallow embedding and verified properties

Embedding of `internal/anexia/provider.go` and `internal/anexia/endpoint_helpers.go`.

* Go strings are Lean `String`s; `len` is the UTF-8 byte length.
* The vendor client (`DNSService`, a Go interface over a mutable object) is a record of
  state-passing functions over an arbitrary state type `σ`; every call made through the
  interface is recorded, in order, in a call log.
* A Go run-time panic (index out of range) is the `none` of an `Option`.
* Library behaviour that the source only calls (`sort.Slice`, ranging over a map,
  `endpoint.DomainFilter`) is a parameter constrained by its documented contract;
  `endpoint.Targets.Same` follows the specification's description of it.
* Pointers to zones, records and endpoints are the values pointed to; the TTL conversions
  between `int` and `int64` are the identity (a 64-bit platform), so TTLs are `Int`.
-/

namespace Anexia

/-! ## Data model -/

/-- Go `error` values, identified by their message. -/
abbrev Error := String

/-- Vendor zone (`anxcloudDns.Zone`); the provider reads no field but `Name`. -/
structure Zone where
  Name : String
deriving DecidableEq, Repr

/-- Vendor record (`anxcloudDns.Record`), with the fields the provider reads or writes; `Type_`
is the source's `Type`, a reserved word here. -/
structure Record where
  Identifier : String
  ZoneName : String
  Name : String
  Type_ : String
  TTL : Int
  RData : String
deriving DecidableEq, Repr

/-- Canonical endpoint (`endpoint.Endpoint`), with the fields the provider reads or writes. -/
structure Endpoint where
  DNSName : String
  Targets : List String
  RecordType : String
  RecordTTL : Int
deriving DecidableEq, Repr

/-- Changeset handed over by the host (`plan.Changes`). -/
structure Changes where
  Create : List Endpoint
  UpdateOld : List Endpoint
  UpdateNew : List Endpoint
  Delete : List Endpoint
deriving DecidableEq, Repr

/-- Domain filter (`endpoint.DomainFilter`): the provider only calls `IsConfigured()` and
`Match(name)`, so the filter is any pair of such answers. -/
structure DomainFilter where
  IsConfigured : Bool
  Match : String → Bool

/-! ## Go string primitives -/

/-- Go `len(s)` for a string: its length in bytes. -/
def len (s : String) : Nat := s.utf8ByteSize

/-- Go `strings.HasSuffix(s, suffix)`. -/
def HasSuffix (s suffix : String) : Bool := suffix.data.isSuffixOf s.data

/-- Go `strings.TrimSuffix(s, suffix)`: `s` without the trailing `suffix` when it has one,
`s` unchanged otherwise. -/
def TrimSuffix (s suffix : String) : String :=
  if HasSuffix s suffix then String.mk (s.data.take (s.data.length - suffix.data.length)) else s

/-! ## endpoint_helpers.go -/

/-- Modelled from the spec: `endpoint.Targets.Same`, a method of the external-dns library that
is not part of this repository. The spec describes it as "an unordered multiset-equality check —
same length and same contents regardless of order". -/
def Targets.Same (t o : List String) : Bool :=
  t.length == o.length && t.isPerm o

/-- Source: `endpointsAreDifferent`. -/
def endpointsAreDifferent (a b : Endpoint) : Bool :=
  a.DNSName != b.DNSName || a.RecordType != b.RecordType ||
    a.RecordTTL != b.RecordTTL || !Targets.Same a.Targets b.Targets

/-- The `for i, updateOldEndpoint := range changes.UpdateOld` loop of
`GetCreateDeleteSetsFromChanges`. The two lists are walked in lock step: the head of the second
list is `changes.UpdateNew[i]`, and reading it when `UpdateNew` is exhausted is the index
out-of-range panic (`none`). -/
def updateLoop : List Endpoint → List Endpoint → List Endpoint × List Endpoint →
    Option (List Endpoint × List Endpoint)
  | [], _, acc => some acc
  | _ :: _, [], _ => none
  | updateOldEndpoint :: olds, updateNewEndpoint :: news, (toCreate, toDelete) =>
    if endpointsAreDifferent updateOldEndpoint updateNewEndpoint then
      updateLoop olds news (toCreate ++ [updateNewEndpoint], toDelete ++ [updateOldEndpoint])
    else
      updateLoop olds news (toCreate, toDelete)

/-- Source: `GetCreateDeleteSetsFromChanges`; returns `(toCreate, toDelete)`. -/
def GetCreateDeleteSetsFromChanges (changes : Changes) :
    Option (List Endpoint × List Endpoint) :=
  updateLoop changes.UpdateOld changes.UpdateNew (changes.Create, changes.Delete)

/-! ## The vendor client interface and the call log -/

/-- Source: `DNSService`, over a client state `σ`. Each method takes the state before the call
and returns its answer with the state after it. -/
structure DNSService (σ : Type) where
  GetZones : σ → Except Error (List Zone) × σ
  GetRecords : σ → Except Error (List Record) × σ
  GetRecordsByZoneNameAndName : String → String → σ → Except Error (List Record) × σ
  GetZonesByDomainName : String → σ → Except Error (List Zone) × σ
  DeleteRecord : String → String → σ → Option Error × σ
  CreateRecord : String → Record → σ → Option Error × σ

/-- One call made through `DNSService`, with its arguments. -/
inductive Call where
  | GetZones
  | GetRecords
  | GetRecordsByZoneNameAndName (zoneName name : String)
  | GetZonesByDomainName (domainName : String)
  | DeleteRecord (zoneName recordID : String)
  | CreateRecord (zoneName : String) (record : Record)
deriving DecidableEq, Repr

/-- The `DeleteRecord` calls of a log, in order, as (zone name, record identifier). -/
def deleteCalls : List Call → List (String × String)
  | [] => []
  | Call.DeleteRecord zoneName recordID :: rest => (zoneName, recordID) :: deleteCalls rest
  | _ :: rest => deleteCalls rest

/-- The `CreateRecord` calls of a log, in order, as (zone name, record). -/
def createCalls : List Call → List (String × Record)
  | [] => []
  | Call.CreateRecord zoneName record :: rest => (zoneName, record) :: createCalls rest
  | _ :: rest => createCalls rest

/-- Source: `Provider`. -/
structure Provider (σ : Type) where
  client : DNSService σ
  domainFilter : DomainFilter

/-- The domain-filter guard `p.domainFilter.IsConfigured() && !p.domainFilter.Match(name)` that
makes a loop skip an endpoint or record. -/
def DomainFilter.skips (f : DomainFilter) (name : String) : Bool :=
  f.IsConfigured && !f.Match name

/-! ## Provider.ApplyChanges -/

/-- What a lookup loop leaves behind: the client state, the calls it made and the records it
queued. -/
structure Scan (σ : Type) where
  state : σ
  calls : List Call
  records : List Record

/-- What a mutation loop leaves behind: the client state, the calls it made and the error that
stopped it, if any. -/
structure Batch (σ : Type) where
  state : σ
  calls : List Call
  err : Option Error

/-- The `for _, record := range records` loop of the delete phase: the fetched records of the
endpoint's type whose `RData` is one of the endpoint's targets, each queued once. -/
def matchingRecords (ep : Endpoint) (records : List Record) : List Record :=
  records.filter fun record =>
    record.Type_ == ep.RecordType && ep.Targets.any fun target => record.RData == target

/-- The `for _, zone := range potentialZones` loop of the delete phase. A failed record lookup
leaves this loop (`break`). -/
def deleteZoneLoop {σ : Type} (client : DNSService σ) (ep : Endpoint) : List Zone → σ → Scan σ
  | [], s => ⟨s, [], []⟩
  | zone :: rest, s =>
    let recordName := TrimSuffix ep.DNSName ("." ++ zone.Name)
    let res := client.GetRecordsByZoneNameAndName zone.Name recordName s
    match res.1 with
    | .error _ => ⟨res.2, [Call.GetRecordsByZoneNameAndName zone.Name recordName], []⟩
    | .ok records =>
      let r := deleteZoneLoop client ep rest res.2
      ⟨r.state, Call.GetRecordsByZoneNameAndName zone.Name recordName :: r.calls,
        matchingRecords ep records ++ r.records⟩

/-- The `for _, ep := range epToDelete` loop. A failed zone lookup leaves this loop (`break`). -/
def deleteEndpointLoop {σ : Type} (client : DNSService σ) (f : DomainFilter) :
    List Endpoint → σ → Scan σ
  | [], s => ⟨s, [], []⟩
  | ep :: rest, s =>
    if f.skips ep.DNSName then deleteEndpointLoop client f rest s
    else
      let res := client.GetZonesByDomainName ep.DNSName s
      match res.1 with
      | .error _ => ⟨res.2, [Call.GetZonesByDomainName ep.DNSName], []⟩
      | .ok potentialZones =>
        let z := deleteZoneLoop client ep potentialZones res.2
        let r := deleteEndpointLoop client f rest z.state
        ⟨r.state, Call.GetZonesByDomainName ep.DNSName :: (z.calls ++ r.calls),
          z.records ++ r.records⟩

/-- The `for _, record := range recordsToDelete` loop: the first failure returns. -/
def deleteRecords {σ : Type} (client : DNSService σ) : List Record → σ → Batch σ
  | [], s => ⟨s, [], none⟩
  | record :: rest, s =>
    let res := client.DeleteRecord record.ZoneName record.Identifier s
    match res.1 with
    | some err => ⟨res.2, [Call.DeleteRecord record.ZoneName record.Identifier], some err⟩
    | none =>
      let r := deleteRecords client rest res.2
      ⟨r.state, Call.DeleteRecord record.ZoneName record.Identifier :: r.calls, r.err⟩

/-- The `for _, target := range ep.Targets` loop of the create phase: one record per target, in
the zone `zone[0]`. -/
def recordsForEndpoint (ep : Endpoint) (zone0 : Zone) : List Record :=
  ep.Targets.map fun target =>
    { Identifier := "", ZoneName := zone0.Name,
      Name := TrimSuffix ep.DNSName ("." ++ zone0.Name),
      RData := target, TTL := ep.RecordTTL, Type_ := ep.RecordType }

/-- The `for _, ep := range epToCreate` loop. A failed zone lookup leaves this loop (`break`);
an empty zone list skips the endpoint (`continue`). -/
def createEndpointLoop {σ : Type} (client : DNSService σ) (f : DomainFilter) :
    List Endpoint → σ → Scan σ
  | [], s => ⟨s, [], []⟩
  | ep :: rest, s =>
    if f.skips ep.DNSName then createEndpointLoop client f rest s
    else
      let res := client.GetZonesByDomainName ep.DNSName s
      match res.1 with
      | .error _ => ⟨res.2, [Call.GetZonesByDomainName ep.DNSName], []⟩
      | .ok [] =>
        let r := createEndpointLoop client f rest res.2
        ⟨r.state, Call.GetZonesByDomainName ep.DNSName :: r.calls, r.records⟩
      | .ok (zone0 :: _) =>
        let r := createEndpointLoop client f rest res.2
        ⟨r.state, Call.GetZonesByDomainName ep.DNSName :: r.calls,
          recordsForEndpoint ep zone0 ++ r.records⟩

/-- The `for _, record := range recordsToCreate` loop: the first failure returns. -/
def createRecords {σ : Type} (client : DNSService σ) : List Record → σ → Batch σ
  | [], s => ⟨s, [], none⟩
  | record :: rest, s =>
    let res := client.CreateRecord record.ZoneName record s
    match res.1 with
    | some err => ⟨res.2, [Call.CreateRecord record.ZoneName record], some err⟩
    | none =>
      let r := createRecords client rest res.2
      ⟨r.state, Call.CreateRecord record.ZoneName record :: r.calls, r.err⟩

/-- Source: `Provider.ApplyChanges`, run from client state `s`. The result is `none` when the
run panics, and otherwise the state and call log of the run together with the returned error
(`err = none` is Go's `nil`). -/
def Provider.ApplyChanges {σ : Type} (p : Provider σ) (changes : Changes) (s : σ) :
    Option (Batch σ) :=
  match GetCreateDeleteSetsFromChanges changes with
  | none => none
  | some (epToCreate, epToDelete) =>
    let scanned := deleteEndpointLoop p.client p.domainFilter epToDelete s
    let deleted := deleteRecords p.client scanned.records scanned.state
    match deleted.err with
    | some err => some ⟨deleted.state, scanned.calls ++ deleted.calls, some err⟩
    | none =>
      let resolved := createEndpointLoop p.client p.domainFilter epToCreate deleted.state
      let created := createRecords p.client resolved.records resolved.state
      some ⟨created.state,
        scanned.calls ++ deleted.calls ++ resolved.calls ++ created.calls, created.err⟩

/-! ## Provider.Records -/

/-- Source: `recordToEndpoint`. -/
def recordToEndpoint (record : Record) : Endpoint :=
  { DNSName :=
      if record.Name = "@" ∨ record.Name = "" then record.ZoneName
      else record.Name ++ "." ++ record.ZoneName
    RecordTTL := record.TTL
    RecordType := record.Type_
    Targets := [record.RData] }

/-- The Go map `groups` of `Provider.Records` (`map[string][]*endpoint.Endpoint`): its entries,
one per key. -/
abbrev Groups := List (String × List Endpoint)

/-- The statement `groups[key] = append(groups[key], ep)`: a present key gets `ep` appended to its
slice, an absent key gets the one-element slice. -/
def appendToGroup : Groups → String → Endpoint → Groups
  | [], key, ep => [(key, [ep])]
  | (k, endpoints) :: rest, key, ep =>
    if k = key then (k, endpoints ++ [ep]) :: rest
    else (k, endpoints) :: appendToGroup rest key ep

/-- The `for _, record := range records` loop of `Provider.Records`. -/
def groupRecords (f : DomainFilter) : List Record → Groups → Groups
  | [], groups => groups
  | record :: rest, groups =>
    let ep := recordToEndpoint record
    if f.skips ep.DNSName then groupRecords f rest groups
    else groupRecords f rest (appendToGroup groups (ep.DNSName ++ ep.RecordType) ep)

/-- Go's `range` over a map visits every entry once, in an order the language leaves
unspecified: any function that permutes the entries. -/
structure MapRange where
  order : Groups → Groups
  perm : ∀ groups, (order groups).Perm groups

/-- The map order that visits the keys in the order they were first inserted. -/
def MapRange.insertionOrder : MapRange := ⟨id, fun _ => List.Perm.refl _⟩

/-- The map order that visits the keys last inserted first. -/
def MapRange.reverseOrder : MapRange := ⟨List.reverse, fun l => List.reverse_perm l⟩

/-- The body of the `for _, endpoints := range groups` loop: the merged endpoint of one group.
Reading `endpoints[0]` of an empty slice is the index out-of-range panic (`none`). -/
def mergeGroup : List Endpoint → Option Endpoint
  | [] => none
  | first :: rest =>
    some { DNSName := first.DNSName
           RecordType := first.RecordType
           RecordTTL := first.RecordTTL
           Targets := (first :: rest).flatMap fun ep => ep.Targets }

/-- The `for _, endpoints := range groups` loop, over the entries in the order visited. -/
def mergeGroups : Groups → Option (List Endpoint)
  | [] => some []
  | (_, endpoints) :: rest =>
    match mergeGroup endpoints with
    | none => none
    | some mergedEndpoint =>
      match mergeGroups rest with
      | none => none
      | some mergedEndpoints => some (mergedEndpoint :: mergedEndpoints)

/-- Source: `Provider.Records`, run from client state `s` with map order `range`. The result is
`none` when the run panics, and otherwise the returned endpoints or error. -/
def Provider.Records {σ : Type} (p : Provider σ) (range : MapRange) (s : σ) :
    Option (Except Error (List Endpoint)) :=
  match (p.client.GetRecords s).1 with
  | .error err => some (.error err)
  | .ok records =>
    match mergeGroups (range.order (groupRecords p.domainFilter records [])) with
    | none => none
    | some mergedEndpoints => some (.ok mergedEndpoints)

/-! ## DNSClient.GetZonesByDomainName -/

/-- Go's `sort.Slice(x, less)`: some rearrangement of `x` that is sorted by `less` whenever
`less` is a strict weak ordering; the sort is not guaranteed to be stable. -/
structure SliceSorter where
  Slice : {α : Type} → List α → (α → α → Bool) → List α
  perm : ∀ {α : Type} (x : List α) (less : α → α → Bool), (Slice x less).Perm x
  sorted : ∀ {α : Type} (x : List α) (less : α → α → Bool),
    (∀ a b, less a b = true → less b a = false) →
    (∀ a b c, less b a = false → less c b = false → less c a = false) →
    (Slice x less).Pairwise fun a b => less b a = false

/-- Source: `DNSClient.GetZonesByDomainName`; `allZones` is what `c.GetZones(ctx)` returned. -/
def DNSClient.GetZonesByDomainName (sort : SliceSorter) (allZones : Except Error (List Zone))
    (domainName : String) : Except Error (List Zone) :=
  match allZones with
  | .error err => .error err
  | .ok allZones =>
    let possibleZones := allZones.filter fun zone => HasSuffix domainName zone.Name
    .ok (sort.Slice possibleZones fun zi zj => decide (len zi.Name > len zj.Name))

/-! ## A test client -/

/-- Source (test): `mockDNSClient`, whose answers depend on its fixed fields only; `zoneRecords`
maps a zone name to the records of that zone. -/
def mockDNSClient (returnError : Option Error) (allRecords : List Record)
    (zoneRecords : String → List Record) (allZones : List Zone) : DNSService Unit where
  GetZones := fun s =>
    (match returnError with | some err => .error err | none => .ok allZones, s)
  GetRecords := fun s =>
    (match returnError with | some err => .error err | none => .ok allRecords, s)
  GetRecordsByZoneNameAndName := fun zoneName name s =>
    (match returnError with
      | some err => .error err
      | none => .ok ((zoneRecords zoneName).filter fun record => record.Name == name), s)
  GetZonesByDomainName := fun domainName s =>
    (match returnError with
      | some err => .error err
      | none => .ok (allZones.filter fun zone => HasSuffix domainName zone.Name), s)
  DeleteRecord := fun _ _ s => (returnError, s)
  CreateRecord := fun _ _ s => (returnError, s)

/-! ## Scenario fixtures -/

/-- The unconfigured domain filter (`endpoint.DomainFilter{}` in the tests). -/
def noDomainFilter : DomainFilter := ⟨false, fun _ => true⟩

/-- A configured domain filter that matches the names ending in `b.de`. -/
def bDeDomainFilter : DomainFilter := ⟨true, fun name => HasSuffix name "b.de"⟩

/-- Zone records of the scenarios: zone `de` holds, under the name `a`, an `A` record with target
`1.2.3.4`, an `A` record with target `9.9.9.9` and a `TXT` record with data `1.2.3.4`. -/
def scenarioZoneRecords : String → List Record := fun zoneName =>
  if zoneName = "de" then
    [{ Identifier := "0", ZoneName := "de", Name := "a", Type_ := "A", TTL := 300,
       RData := "1.2.3.4" },
     { Identifier := "1", ZoneName := "de", Name := "a", Type_ := "A", TTL := 300,
       RData := "9.9.9.9" },
     { Identifier := "2", ZoneName := "de", Name := "a", Type_ := "TXT", TTL := 300,
       RData := "1.2.3.4" }]
  else []

/-- The provider of the scenarios: the test client over the single zone `de`. -/
def scenarioProvider (f : DomainFilter) : Provider Unit :=
  ⟨mockDNSClient none [] scenarioZoneRecords [⟨"de"⟩], f⟩

/-- The endpoint `a.de/A/300` with the given targets. -/
def aDe (targets : List String) : Endpoint :=
  { DNSName := "a.de", Targets := targets, RecordType := "A", RecordTTL := 300 }

/-- The endpoint `a.com/A/300/[1.2.3.4]`, whose name lies in no zone of the scenarios. -/
def aCom : Endpoint :=
  { DNSName := "a.com", Targets := ["1.2.3.4"], RecordType := "A", RecordTTL := 300 }

/-- Two vendor records with different fully-qualified names and different types whose
concatenations of name and type coincide: `a.de` of type `AAAA` and `a.deAAA` of type `A`. -/
def collidingRecords : List Record :=
  [{ Identifier := "1", ZoneName := "de", Name := "a", Type_ := "AAAA", TTL := 300,
     RData := "::1" },
   { Identifier := "2", ZoneName := "deAAA", Name := "a", Type_ := "A", TTL := 300,
     RData := "1.2.3.4" }]

/-- Two `A` records of `a.de` and a `TXT` record of `b.de`, as `GetRecords` returns them. -/
def scenarioRecords : List Record :=
  [{ Identifier := "0", ZoneName := "de", Name := "a", Type_ := "A", TTL := 300,
     RData := "1.2.3.4" },
   { Identifier := "1", ZoneName := "de", Name := "b", Type_ := "TXT", TTL := 300,
     RData := "hello" },
   { Identifier := "2", ZoneName := "de", Name := "a", Type_ := "A", TTL := 300,
     RData := "5.6.7.8" }]

/-! ## Vocabulary of the specification -/

/-- The spec's "different": the pair differs in DNS name, record type, TTL or target multiset. -/
def Differ (a b : Endpoint) : Prop :=
  a.DNSName ≠ b.DNSName ∨ a.RecordType ≠ b.RecordType ∨ a.RecordTTL ≠ b.RecordTTL ∨
    ¬ a.Targets.Perm b.Targets

instance Differ.instDecidable (a b : Endpoint) : Decidable (Differ a b) := by
  unfold Differ; infer_instance

/-- The update pairs `(UpdateOld[i], UpdateNew[i])` that the spec calls different, in index
order. -/
def changedPairs (olds news : List Endpoint) : List (Endpoint × Endpoint) :=
  (olds.zip news).filter fun pair => decide (Differ pair.1 pair.2)

/-- A DNS name passes the domain filter: the filter matches it, or is not configured. -/
def DomainFilter.passes (f : DomainFilter) (name : String) : Prop :=
  f.IsConfigured = false ∨ f.Match name = true

/-- A client whose calls all succeed, in every state. -/
def DNSService.AllSucceed {σ : Type} (client : DNSService σ) : Prop :=
  (∀ s, ∃ zones, (client.GetZones s).1 = .ok zones) ∧
  (∀ s, ∃ records, (client.GetRecords s).1 = .ok records) ∧
  (∀ zoneName name s, ∃ records,
    (client.GetRecordsByZoneNameAndName zoneName name s).1 = .ok records) ∧
  (∀ domainName s, ∃ zones, (client.GetZonesByDomainName domainName s).1 = .ok zones) ∧
  (∀ zoneName recordID s, (client.DeleteRecord zoneName recordID s).1 = none) ∧
  (∀ zoneName record s, (client.CreateRecord zoneName record s).1 = none)

/-- A `sort.Slice` by insertion (a stable one; the contract asks for less). -/
def SliceSorter.insertion : SliceSorter where
  Slice := fun x less => x.insertionSort fun a b => less b a = false
  perm := fun x less => List.perm_insertionSort _ x
  sorted := fun {α} x less hasymm htrans => by
    haveI : IsTotal α (fun a b => less b a = false) :=
      ⟨fun a b => by
        cases h : less b a
        · exact Or.inl rfl
        · exact Or.inr (hasymm b a h)⟩
    haveI : IsTrans α (fun a b => less b a = false) := ⟨fun a b c => htrans a b c⟩
    exact List.sorted_insertionSort _ x

/-- The merged endpoint of a group known to be non-empty. -/
def mergeGroupD (endpoints : List Endpoint) : Endpoint :=
  (mergeGroup endpoints).getD { DNSName := "", Targets := [], RecordType := "", RecordTTL := 0 }

/-- The invariant of the map `groups` while `Provider.Records` fills it from `records`: keys are
distinct, no slice is empty, and every endpoint in the slice of a key is the projection of one
of the records, passes the domain filter and has that key. -/
def GroupsInv (f : DomainFilter) (records : List Record) (groups : Groups) : Prop :=
  (groups.map Prod.fst).Nodup ∧
    ∀ entry ∈ groups, entry.2 ≠ [] ∧
      ∀ ep ∈ entry.2, ep.DNSName ++ ep.RecordType = entry.1 ∧ f.passes ep.DNSName ∧
        ∃ record ∈ records, ep = recordToEndpoint record

/-- The records that the domain-filter guard of `Provider.Records` lets through, in input
order. -/
def survivors (f : DomainFilter) (records : List Record) : List Record :=
  records.filter fun record => !f.skips (recordToEndpoint record).DNSName

/-- The slice stored under `key` in the map `groups` (`groups[key]`, empty when absent). -/
def findGroup : Groups → String → List Endpoint
  | [], _ => []
  | (k, endpoints) :: rest, key => if k = key then endpoints else findGroup rest key

/-! ## DNSClient.GetZones -/

/-- The `for res := range channel` loop of `DNSClient.GetZones`. Each `res` is a retriever that
decodes one listed zone into the variable it is handed, or fails. The variable `zone` is
declared once, before the loop: `res(&zone)` overwrites its content and
`zones = append(zones, &zone)` appends one more pointer to that same variable. The loop state is
the length of `zones` and the content of `zone`. -/
def getZonesLoop : List (Except Error Zone) → Nat → Zone → Except Error (Nat × Zone)
  | [], count, zone => .ok (count, zone)
  | res :: channel, count, _ =>
    match res with
    | .error err => .error err
    | .ok decoded => getZonesLoop channel (count + 1) decoded

/-- Source: `DNSClient.GetZones`. `listing` is what `c.client.List` did: fail, or deliver the
retrievers of the listed zones on the channel. Every element of the returned slice is the
pointer `&zone`, so the caller reads the final content of `zone` at every position. -/
def DNSClient.GetZones (listing : Except Error (List (Except Error Zone))) :
    Except Error (List Zone) :=
  match listing with
  | .error err => .error err
  | .ok channel =>
    match getZonesLoop channel 0 { Name := "" } with
    | .error err => .error err
    | .ok (count, zone) => .ok (List.replicate count zone)

/-! ## Control flow of the lookup loops -/

/-- Whether the zone loop of the delete phase is left by its `break`: a record lookup failed. -/
def deleteZoneLoopBreaks {σ : Type} (client : DNSService σ) (ep : Endpoint) :
    List Zone → σ → Bool
  | [], _ => false
  | zone :: rest, s =>
    let res := client.GetRecordsByZoneNameAndName zone.Name
      (TrimSuffix ep.DNSName ("." ++ zone.Name)) s
    match res.1 with
    | .error _ => true
    | .ok _ => deleteZoneLoopBreaks client ep rest res.2

/-- Whether the endpoint loop of the delete phase is left by its `break`: a zone lookup
failed. -/
def deleteEndpointLoopBreaks {σ : Type} (client : DNSService σ) (f : DomainFilter) :
    List Endpoint → σ → Bool
  | [], _ => false
  | ep :: rest, s =>
    if f.skips ep.DNSName then deleteEndpointLoopBreaks client f rest s
    else
      let res := client.GetZonesByDomainName ep.DNSName s
      match res.1 with
      | .error _ => true
      | .ok potentialZones =>
        deleteEndpointLoopBreaks client f rest (deleteZoneLoop client ep potentialZones res.2).state

/-- Whether the endpoint loop of the create phase is left by its `break`: a zone lookup
failed. -/
def createEndpointLoopBreaks {σ : Type} (client : DNSService σ) (f : DomainFilter) :
    List Endpoint → σ → Bool
  | [], _ => false
  | ep :: rest, s =>
    if f.skips ep.DNSName then createEndpointLoopBreaks client f rest s
    else
      let res := client.GetZonesByDomainName ep.DNSName s
      match res.1 with
      | .error _ => true
      | .ok _ => createEndpointLoopBreaks client f rest res.2

/-- The record lookups of a delete scan when the zone lookup for a DNS name answers `zonesOf`:
one scan position per passing endpoint and candidate zone, in scan order. -/
def scanPositions (f : DomainFilter) (zonesOf : String → List Zone) (eps : List Endpoint) :
    List (Endpoint × Zone) :=
  (eps.filter fun ep => !f.skips ep.DNSName).flatMap fun ep =>
    (zonesOf ep.DNSName).map fun zone => (ep, zone)

/-- The records queued at one scan position when the record lookup for a zone name and a
relative name answers `recsOf`. -/
def queuedAt (recsOf : String → String → List Record) (position : Endpoint × Zone) :
    List Record :=
  matchingRecords position.1
    (recsOf position.2.Name (TrimSuffix position.1.DNSName ("." ++ position.2.Name)))

/-- Two scan positions that can match one record: they ask for the same zone name and relative
name, for endpoints of the same record type that share a target. -/
def Overlap (a b : Endpoint × Zone) : Prop :=
  a.2.Name = b.2.Name ∧
    TrimSuffix a.1.DNSName ("." ++ a.2.Name) = TrimSuffix b.1.DNSName ("." ++ b.2.Name) ∧
    a.1.RecordType = b.1.RecordType ∧ ∃ target ∈ a.1.Targets, target ∈ b.1.Targets

instance Overlap.instDecidable (a b : Endpoint × Zone) : Decidable (Overlap a b) := by
  unfold Overlap; infer_instance

/-- The endpoint `a.de/TXT/300/[1.2.3.4]`. -/
def aDeTxt : Endpoint :=
  { DNSName := "a.de", Targets := ["1.2.3.4"], RecordType := "TXT", RecordTTL := 300 }

/-! ## More scenario fixtures -/

/-- A test client over fixed zones and records whose calls fail where the given tables say
so. -/
def stubDNSClient (allZones : List Zone) (zoneRecords : String → List Record)
    (zoneLookupError : String → Option Error)
    (recordLookupError : String → String → Option Error)
    (deleteError : String → String → Option Error)
    (createError : String → Record → Option Error) : DNSService Unit where
  GetZones := fun s => (.ok allZones, s)
  GetRecords := fun s => (.ok (allZones.flatMap fun zone => zoneRecords zone.Name), s)
  GetRecordsByZoneNameAndName := fun zoneName name s =>
    (match recordLookupError zoneName name with
      | some err => .error err
      | none => .ok ((zoneRecords zoneName).filter fun record => record.Name == name), s)
  GetZonesByDomainName := fun domainName s =>
    (match zoneLookupError domainName with
      | some err => .error err
      | none => .ok (allZones.filter fun zone => HasSuffix domainName zone.Name), s)
  DeleteRecord := fun zoneName recordID s => (deleteError zoneName recordID, s)
  CreateRecord := fun zoneName record s => (createError zoneName record, s)

/-- Zone records over the zones `de` and `com`: those of `scenarioZoneRecords` and, in zone
`com`, an `A` record `b` with target `2.2.2.2`. -/
def twoZoneRecords : String → List Record := fun zoneName =>
  if zoneName = "com" then
    [{ Identifier := "7", ZoneName := "com", Name := "b", Type_ := "A", TTL := 300,
       RData := "2.2.2.2" }]
  else scenarioZoneRecords zoneName

/-- The endpoint `b.com/A/300/[2.2.2.2]`. -/
def bCom : Endpoint :=
  { DNSName := "b.com", Targets := ["2.2.2.2"], RecordType := "A", RecordTTL := 300 }

/-- The apex endpoint `de/A/300/[1.2.3.4]` of the zone `de`. -/
def apexDe : Endpoint :=
  { DNSName := "de", Targets := ["1.2.3.4"], RecordType := "A", RecordTTL := 300 }

/-- Zone `de` holding one `A` record of relative name `de`, that is of the fully-qualified name
`de.de`, with target `1.2.3.4`. -/
def deDeZoneRecords : String → List Record := fun zoneName =>
  if zoneName = "de" then
    [{ Identifier := "9", ZoneName := "de", Name := "de", Type_ := "A", TTL := 300,
       RData := "1.2.3.4" }]
  else []

/-- No call fails. -/
def noError {α : Type} : α → Option Error := fun _ => none

/-- No call fails (two arguments). -/
def noError₂ {α β : Type} : α → β → Option Error := fun _ _ => none

/-- The delete phase of `ApplyChanges`: the scan of the delete-list, then the `DeleteRecord`
calls for the queued records. -/
def deletePhase {σ : Type} (p : Provider σ) (epToDelete : List Endpoint) (s : σ) : Batch σ :=
  let scanned := deleteEndpointLoop p.client p.domainFilter epToDelete s
  let deleted := deleteRecords p.client scanned.records scanned.state
  ⟨deleted.state, scanned.calls ++ deleted.calls, deleted.err⟩

/-- The create phase of `ApplyChanges`: the resolution of the create-list, then the
`CreateRecord` calls for the built records. -/
def createPhase {σ : Type} (p : Provider σ) (epToCreate : List Endpoint) (s : σ) : Batch σ :=
  let resolved := createEndpointLoop p.client p.domainFilter epToCreate s
  let created := createRecords p.client resolved.records resolved.state
  ⟨created.state, resolved.calls ++ created.calls, created.err⟩

/-- A provider whose zone lookup for `a.de` fails, over the zones `de` and `com`. -/
def zoneLookupFailsProvider : Provider Unit :=
  ⟨stubDNSClient [⟨"de"⟩, ⟨"com"⟩] twoZoneRecords
    (fun domainName => if domainName = "a.de" then some "zone lookup failed" else none)
    noError₂ noError₂ noError₂, noDomainFilter⟩

/-- A provider whose record lookups in zone `a.de` fail, over the zones `a.de`, `de` and
`com`. -/
def recordLookupFailsProvider : Provider Unit :=
  ⟨stubDNSClient [⟨"a.de"⟩, ⟨"de"⟩, ⟨"com"⟩] twoZoneRecords noError
    (fun zoneName _ => if zoneName = "a.de" then some "record lookup failed" else none)
    noError₂ noError₂, noDomainFilter⟩

/-- The record `b` of zone `com` in `twoZoneRecords`. -/
def bComRecord : Record :=
  { Identifier := "7", ZoneName := "com", Name := "b", Type_ := "A", TTL := 300,
    RData := "2.2.2.2" }

/-- The endpoint `xde/A/300/[1.2.3.4]`: its name ends in `de` without the dot before it. -/
def xDe : Endpoint :=
  { DNSName := "xde", Targets := ["1.2.3.4"], RecordType := "A", RecordTTL := 300 }

/-! ## Lemmas on the update normalisation -/

theorem Targets.Same_iff (t o : List String) : Targets.Same t o = true ↔ t.Perm o := by
  unfold Targets.Same
  constructor
  · intro h
    simp only [Bool.and_eq_true, List.isPerm_iff] at h
    exact h.2
  · intro h
    simp only [Bool.and_eq_true, List.isPerm_iff, beq_iff_eq]
    exact ⟨h.length_eq, h⟩

theorem endpointsAreDifferent_iff (a b : Endpoint) :
    endpointsAreDifferent a b = true ↔ Differ a b := by
  unfold endpointsAreDifferent Differ
  simp only [Bool.or_eq_true, bne_iff_ne, Bool.not_eq_true', ← Bool.not_eq_true,
    Targets.Same_iff, or_assoc, ne_eq]

theorem updateLoop_eq (olds : List Endpoint) :
    ∀ (news toCreate toDelete : List Endpoint), olds.length = news.length →
      updateLoop olds news (toCreate, toDelete) =
        some (toCreate ++ (changedPairs olds news).map Prod.snd,
          toDelete ++ (changedPairs olds news).map Prod.fst) := by
  induction olds with
  | nil =>
    intro news toCreate toDelete _
    simp [updateLoop, changedPairs]
  | cons o olds ih =>
    intro news toCreate toDelete hlen
    cases news with
    | nil => simp at hlen
    | cons n news =>
      have hlen' : olds.length = news.length := by simpa using hlen
      by_cases hd : Differ o n
      · have hb : endpointsAreDifferent o n = true := (endpointsAreDifferent_iff o n).2 hd
        simp [updateLoop, hb, ih news _ _ hlen', changedPairs, List.filter_cons, hd]
      · have hb : endpointsAreDifferent o n = false := by
          cases h : endpointsAreDifferent o n
          · rfl
          · exact absurd ((endpointsAreDifferent_iff o n).1 h) hd
        simp [updateLoop, hb, ih news _ _ hlen', changedPairs, List.filter_cons, hd]

theorem changedPairs_eq_nil (olds news : List Endpoint)
    (h : ∀ pair ∈ olds.zip news, ¬ Differ pair.1 pair.2) : changedPairs olds news = [] := by
  unfold changedPairs
  rw [List.filter_eq_nil_iff]
  intro pair hp
  simpa using h pair hp

/-! ## Lemmas on the call log and the loops of `ApplyChanges` -/

theorem DomainFilter.skips_eq_false_iff (f : DomainFilter) (name : String) :
    f.skips name = false ↔ f.passes name := by
  unfold DomainFilter.skips DomainFilter.passes
  cases f.IsConfigured <;> cases f.Match name <;> simp

theorem deleteCalls_append (l₁ l₂ : List Call) :
    deleteCalls (l₁ ++ l₂) = deleteCalls l₁ ++ deleteCalls l₂ := by
  induction l₁ with
  | nil => rfl
  | cons c l ih => cases c <;> simp [deleteCalls, ih]

theorem createCalls_append (l₁ l₂ : List Call) :
    createCalls (l₁ ++ l₂) = createCalls l₁ ++ createCalls l₂ := by
  induction l₁ with
  | nil => rfl
  | cons c l ih => cases c <;> simp [createCalls, ih]

theorem deleteCalls_map_DeleteRecord (records : List Record) :
    deleteCalls (records.map fun r => Call.DeleteRecord r.ZoneName r.Identifier) =
      records.map fun r => (r.ZoneName, r.Identifier) := by
  induction records with
  | nil => rfl
  | cons r l ih => simp [deleteCalls, ih]

theorem createCalls_map_DeleteRecord (records : List Record) :
    createCalls (records.map fun r => Call.DeleteRecord r.ZoneName r.Identifier) = [] := by
  induction records with
  | nil => rfl
  | cons r l ih => simp [createCalls, ih]

theorem createCalls_map_CreateRecord (records : List Record) :
    createCalls (records.map fun r => Call.CreateRecord r.ZoneName r) =
      records.map fun r => (r.ZoneName, r) := by
  induction records with
  | nil => rfl
  | cons r l ih => simp [createCalls, ih]

theorem deleteCalls_map_CreateRecord (records : List Record) :
    deleteCalls (records.map fun r => Call.CreateRecord r.ZoneName r) = [] := by
  induction records with
  | nil => rfl
  | cons r l ih => simp [deleteCalls, ih]

theorem deleteCalls_map_GetZonesByDomainName (eps : List Endpoint) :
    deleteCalls (eps.map fun ep => Call.GetZonesByDomainName ep.DNSName) = [] := by
  induction eps with
  | nil => rfl
  | cons r l ih => simp [deleteCalls, ih]

theorem createCalls_map_GetZonesByDomainName (eps : List Endpoint) :
    createCalls (eps.map fun ep => Call.GetZonesByDomainName ep.DNSName) = [] := by
  induction eps with
  | nil => rfl
  | cons r l ih => simp [createCalls, ih]

theorem deleteCalls_map_GetRecordsByZoneNameAndName (ep : Endpoint) (zones : List Zone) :
    deleteCalls (zones.map fun zone => Call.GetRecordsByZoneNameAndName zone.Name
      (TrimSuffix ep.DNSName ("." ++ zone.Name))) = [] := by
  induction zones with
  | nil => rfl
  | cons r l ih => simp [deleteCalls, ih]

theorem createCalls_map_GetRecordsByZoneNameAndName (ep : Endpoint) (zones : List Zone) :
    createCalls (zones.map fun zone => Call.GetRecordsByZoneNameAndName zone.Name
      (TrimSuffix ep.DNSName ("." ++ zone.Name))) = [] := by
  induction zones with
  | nil => rfl
  | cons r l ih => simp [createCalls, ih]

theorem deleteRecords_of_succeed {σ : Type} (client : DNSService σ)
    (h : ∀ zoneName recordID s, (client.DeleteRecord zoneName recordID s).1 = none)
    (records : List Record) :
    ∀ s, (deleteRecords client records s).calls =
        records.map (fun r => Call.DeleteRecord r.ZoneName r.Identifier) ∧
      (deleteRecords client records s).err = none := by
  induction records with
  | nil => intro s; simp [deleteRecords]
  | cons r l ih =>
    intro s
    have := ih (client.DeleteRecord r.ZoneName r.Identifier s).2
    simp [deleteRecords, h, this.1, this.2]

theorem createRecords_of_succeed {σ : Type} (client : DNSService σ)
    (h : ∀ zoneName record s, (client.CreateRecord zoneName record s).1 = none)
    (records : List Record) :
    ∀ s, (createRecords client records s).calls =
        records.map (fun r => Call.CreateRecord r.ZoneName r) ∧
      (createRecords client records s).err = none := by
  induction records with
  | nil => intro s; simp [createRecords]
  | cons r l ih =>
    intro s
    have := ih (client.CreateRecord r.ZoneName r s).2
    simp [createRecords, h, this.1, this.2]

theorem matchingRecords_eq_filter (ep : Endpoint) (records : List Record) :
    matchingRecords ep records =
      records.filter fun r => decide (r.Type_ = ep.RecordType ∧ r.RData ∈ ep.Targets) := by
  unfold matchingRecords
  apply List.filter_congr
  intro r _
  have hany : (ep.Targets.any fun target => r.RData == target) = decide (r.RData ∈ ep.Targets) := by
    by_cases h2 : r.RData ∈ ep.Targets
    · simp only [h2, decide_True, List.any_eq_true, beq_iff_eq]
      exact ⟨r.RData, h2, rfl⟩
    · simp only [h2, decide_False]
      rw [Bool.eq_false_iff]
      intro hc
      obtain ⟨t, ht, he⟩ := List.any_eq_true.1 hc
      exact h2 (by rw [beq_iff_eq] at he; rw [he]; exact ht)
  rw [hany]
  by_cases h1 : r.Type_ = ep.RecordType <;> simp [h1]

theorem filter_flatMap_eq {α β : Type} (p : β → Bool) (f : α → List β) (l : List α) :
    (l.flatMap f).filter p = l.flatMap fun a => (f a).filter p := by
  induction l with
  | nil => rfl
  | cons a l ih => simp [List.flatMap_cons, List.filter_append, ih]

theorem deleteZoneLoop_of_succeed {σ : Type} (client : DNSService σ) (ep : Endpoint)
    (recs : Zone → List Record) (zones : List Zone)
    (h : ∀ zone ∈ zones, ∀ s, (client.GetRecordsByZoneNameAndName zone.Name
      (TrimSuffix ep.DNSName ("." ++ zone.Name)) s).1 = .ok (recs zone)) :
    ∀ s, (deleteZoneLoop client ep zones s).calls =
        zones.map (fun zone => Call.GetRecordsByZoneNameAndName zone.Name
          (TrimSuffix ep.DNSName ("." ++ zone.Name))) ∧
      (deleteZoneLoop client ep zones s).records =
        zones.flatMap fun zone => matchingRecords ep (recs zone) := by
  induction zones with
  | nil => intro s; simp [deleteZoneLoop]
  | cons z l ih =>
    intro s
    have hz := h z (List.mem_cons_self _ _) s
    have := ih (fun zone hm => h zone (List.mem_cons_of_mem _ hm))
      (client.GetRecordsByZoneNameAndName z.Name (TrimSuffix ep.DNSName ("." ++ z.Name)) s).2
    simp [deleteZoneLoop, hz, this.1, this.2, List.flatMap_cons]

/-! ## Lemmas on the grouping of `Provider.Records` -/

theorem appendToGroup_keys (groups : Groups) (key : String) (ep : Endpoint) :
    (appendToGroup groups key ep).map Prod.fst =
      if key ∈ groups.map Prod.fst then groups.map Prod.fst
      else groups.map Prod.fst ++ [key] := by
  induction groups with
  | nil => simp [appendToGroup]
  | cons entry rest ih =>
    obtain ⟨k, eps⟩ := entry
    by_cases hk : k = key
    · simp [appendToGroup, hk]
    · have hk' : ¬ key = k := fun h => hk h.symm
      simp only [appendToGroup, hk, if_false, List.map_cons, ih, List.mem_cons, hk', false_or]
      split <;> simp

theorem mem_appendToGroup (groups : Groups) (key : String) (ep : Endpoint)
    (entry : String × List Endpoint) (h : entry ∈ appendToGroup groups key ep) :
    entry ∈ groups ∨
      (entry.1 = key ∧ ∃ eps, entry.2 = eps ++ [ep] ∧ (eps = [] ∨ (key, eps) ∈ groups)) := by
  induction groups with
  | nil =>
    simp only [appendToGroup, List.mem_singleton] at h
    subst h
    exact Or.inr ⟨rfl, [], rfl, Or.inl rfl⟩
  | cons head rest ih =>
    obtain ⟨k, eps⟩ := head
    by_cases hk : k = key
    · simp only [appendToGroup, hk, if_true, List.mem_cons] at h
      rcases h with h | h
      · subst h
        exact Or.inr ⟨rfl, eps, rfl, Or.inr (by simp [hk])⟩
      · exact Or.inl (List.mem_cons_of_mem _ h)
    · simp only [appendToGroup, hk, if_false, List.mem_cons] at h
      rcases h with h | h
      · exact Or.inl (by simp [h])
      · rcases ih h with h' | ⟨h1, eps', h2, h3⟩
        · exact Or.inl (List.mem_cons_of_mem _ h')
        · refine Or.inr ⟨h1, eps', h2, ?_⟩
          rcases h3 with h3 | h3
          · exact Or.inl h3
          · exact Or.inr (List.mem_cons_of_mem _ h3)

theorem GroupsInv.appendToGroup {f : DomainFilter} {records : List Record} {groups : Groups}
    (hinv : GroupsInv f records groups) (record : Record) (hrec : record ∈ records)
    (hpass : f.passes (recordToEndpoint record).DNSName) :
    GroupsInv f records (Anexia.appendToGroup groups
      ((recordToEndpoint record).DNSName ++ (recordToEndpoint record).RecordType)
      (recordToEndpoint record)) := by
  refine ⟨?_, ?_⟩
  · rw [appendToGroup_keys]
    split
    · exact hinv.1
    · rename_i hnot
      exact List.Nodup.append hinv.1 (List.nodup_singleton _)
        (by simpa [List.disjoint_singleton] using hnot)
  · intro entry hentry
    rcases mem_appendToGroup _ _ _ _ hentry with h | ⟨h1, eps, h2, h3⟩
    · exact hinv.2 entry h
    · refine ⟨by simp [h2], ?_⟩
      intro ep hep
      rw [h2, List.mem_append, List.mem_singleton] at hep
      rcases hep with hep | hep
      · rcases h3 with h3 | h3
        · simp [h3] at hep
        · have := (hinv.2 _ h3).2 ep hep
          exact ⟨by rw [h1]; exact this.1, this.2⟩
      · subst hep
        exact ⟨h1.symm, hpass, record, hrec, rfl⟩

theorem GroupsInv.groupRecords {f : DomainFilter} {records : List Record} (rest : List Record) :
    ∀ groups : Groups, GroupsInv f records groups → (∀ record ∈ rest, record ∈ records) →
      GroupsInv f records (Anexia.groupRecords f rest groups) := by
  induction rest with
  | nil => intro groups hinv _; exact hinv
  | cons record rest ih =>
    intro groups hinv hsub
    have hsub' : ∀ r ∈ rest, r ∈ records := fun r hr => hsub r (List.mem_cons_of_mem _ hr)
    by_cases hskip : f.skips (recordToEndpoint record).DNSName = true
    · simp only [Anexia.groupRecords, hskip, if_true]
      exact ih groups hinv hsub'
    · have hskip' : f.skips (recordToEndpoint record).DNSName = false := by
        simpa using hskip
      simp only [Anexia.groupRecords, hskip', Bool.false_eq_true, if_false]
      exact ih _ (hinv.appendToGroup record (hsub record (List.mem_cons_self _ _))
        ((DomainFilter.skips_eq_false_iff _ _).1 hskip')) hsub'

theorem GroupsInv.nil (f : DomainFilter) (records : List Record) : GroupsInv f records [] :=
  ⟨List.nodup_nil, fun _ h => absurd h (List.not_mem_nil _)⟩

theorem GroupsInv.perm {f : DomainFilter} {records : List Record} {groups groups' : Groups}
    (hinv : GroupsInv f records groups) (hperm : groups'.Perm groups) :
    GroupsInv f records groups' :=
  ⟨(hperm.map Prod.fst).nodup_iff.2 hinv.1, fun entry h => hinv.2 entry (hperm.mem_iff.1 h)⟩

theorem mergeGroup_eq_some (endpoints : List Endpoint) (h : endpoints ≠ []) :
    mergeGroup endpoints = some (mergeGroupD endpoints) := by
  cases endpoints with
  | nil => exact absurd rfl h
  | cons first rest => rfl

theorem mergeGroups_eq_some (groups : Groups) (h : ∀ entry ∈ groups, entry.2 ≠ []) :
    mergeGroups groups = some (groups.map fun entry => mergeGroupD entry.2) := by
  induction groups with
  | nil => rfl
  | cons entry rest ih =>
    obtain ⟨k, eps⟩ := entry
    have h1 := mergeGroup_eq_some eps (h (k, eps) (List.mem_cons_self _ _))
    simp [mergeGroups, h1, ih fun e he => h e (List.mem_cons_of_mem _ he)]

theorem mergeGroupD_spec (endpoints : List Endpoint) (h : endpoints ≠ []) :
    ∃ first ∈ endpoints, (mergeGroupD endpoints).DNSName = first.DNSName ∧
      (mergeGroupD endpoints).RecordType = first.RecordType := by
  cases endpoints with
  | nil => exact absurd rfl h
  | cons first rest => exact ⟨first, List.mem_cons_self _ _, rfl, rfl⟩

theorem Records_eq_some {σ : Type} (p : Provider σ) (range : MapRange) (s : σ)
    (records : List Record) (hget : (p.client.GetRecords s).1 = .ok records) :
    p.Records range s = some (.ok
      ((range.order (groupRecords p.domainFilter records [])).map
        fun entry => mergeGroupD entry.2)) ∧
      GroupsInv p.domainFilter records (range.order (groupRecords p.domainFilter records [])) := by
  have hinv : GroupsInv p.domainFilter records
      (range.order (groupRecords p.domainFilter records [])) :=
    (GroupsInv.groupRecords records [] (GroupsInv.nil _ _) (fun _ h => h)).perm (range.perm _)
  refine ⟨?_, hinv⟩
  simp [Provider.Records, hget, mergeGroups_eq_some _ fun entry he => (hinv.2 entry he).1]

theorem findGroup_appendToGroup (groups : Groups) (key key' : String) (ep : Endpoint) :
    findGroup (appendToGroup groups key ep) key' =
      if key = key' then findGroup groups key' ++ [ep] else findGroup groups key' := by
  induction groups with
  | nil =>
    by_cases h : key = key' <;> simp [appendToGroup, findGroup, h]
  | cons entry rest ih =>
    obtain ⟨k, eps⟩ := entry
    by_cases hk : k = key
    · subst hk
      by_cases h : k = key' <;> simp [appendToGroup, findGroup, h]
    · by_cases hk' : k = key'
      · subst hk'
        have : ¬ key = k := fun h => hk h.symm
        simp [appendToGroup, findGroup, hk, this]
      · simp [appendToGroup, findGroup, hk, hk', ih]

theorem findGroup_groupRecords (f : DomainFilter) (key : String) (records : List Record) :
    ∀ groups : Groups, findGroup (groupRecords f records groups) key =
      findGroup groups key ++ ((survivors f records).map recordToEndpoint).filter
        fun ep => decide (ep.DNSName ++ ep.RecordType = key) := by
  induction records with
  | nil => intro groups; simp [groupRecords, survivors]
  | cons record rest ih =>
    intro groups
    by_cases hskip : f.skips (recordToEndpoint record).DNSName = true
    · simp only [groupRecords, hskip, if_true, ih]
      simp [survivors, List.filter_cons, hskip]
    · have hskip' : f.skips (recordToEndpoint record).DNSName = false := by simpa using hskip
      simp only [groupRecords, hskip', Bool.false_eq_true, if_false, ih,
        findGroup_appendToGroup]
      by_cases hkey : (recordToEndpoint record).DNSName ++ (recordToEndpoint record).RecordType
          = key
      · simp [survivors, List.filter_cons, hskip', hkey]
      · simp [survivors, List.filter_cons, hskip', hkey]

theorem keys_groupRecords (f : DomainFilter) (key : String) (records : List Record) :
    ∀ groups : Groups, key ∈ (groupRecords f records groups).map Prod.fst ↔
      key ∈ groups.map Prod.fst ∨ ∃ record ∈ survivors f records,
        (recordToEndpoint record).DNSName ++ (recordToEndpoint record).RecordType = key := by
  induction records with
  | nil => intro groups; simp [groupRecords, survivors]
  | cons record rest ih =>
    intro groups
    by_cases hskip : f.skips (recordToEndpoint record).DNSName = true
    · simp only [groupRecords, hskip, if_true, ih]
      simp [survivors, List.filter_cons, hskip]
    · have hskip' : f.skips (recordToEndpoint record).DNSName = false := by simpa using hskip
      simp only [groupRecords, hskip', Bool.false_eq_true, if_false, ih, appendToGroup_keys]
      have hsurv : survivors f (record :: rest) = record :: survivors f rest := by
        simp [survivors, List.filter_cons, hskip']
      rw [hsurv]
      simp only [List.mem_cons, exists_eq_or_imp]
      split
      · rename_i hmem
        constructor
        · rintro (h | h)
          · exact Or.inl h
          · exact Or.inr (Or.inr h)
        · rintro (h | h | h)
          · exact Or.inl h
          · exact Or.inl (h ▸ hmem)
          · exact Or.inr h
      · simp only [List.mem_append, List.mem_singleton]
        constructor
        · rintro ((h | h) | h)
          · exact Or.inl h
          · exact Or.inr (Or.inl h.symm)
          · exact Or.inr (Or.inr h)
        · rintro (h | h | h)
          · exact Or.inl (Or.inl h)
          · exact Or.inl (Or.inr h.symm)
          · exact Or.inr h

theorem findGroup_of_mem (groups : Groups) (h : (groups.map Prod.fst).Nodup)
    (entry : String × List Endpoint) (hentry : entry ∈ groups) :
    findGroup groups entry.1 = entry.2 := by
  induction groups with
  | nil => simp at hentry
  | cons head rest ih =>
    obtain ⟨k, eps⟩ := head
    rw [List.map_cons, List.nodup_cons] at h
    rcases List.mem_cons.1 hentry with h1 | h1
    · subst h1
      simp [findGroup]
    · have hne : ¬ k = entry.1 := by
        intro hk
        have hmem : entry.1 ∈ rest.map Prod.fst := List.mem_map_of_mem Prod.fst h1
        exact h.1 (by rw [hk]; exact hmem)
      simp [findGroup, hne, ih h.2 h1]

theorem mem_of_mem_keys (groups : Groups) (key : String) (h : key ∈ groups.map Prod.fst) :
    (key, findGroup groups key) ∈ groups := by
  induction groups with
  | nil => simp at h
  | cons head rest ih =>
    obtain ⟨k, eps⟩ := head
    by_cases hk : k = key
    · subst hk
      simp [findGroup]
    · have : key ∈ rest.map Prod.fst := by
        rcases List.mem_cons.1 h with h1 | h1
        · exact absurd h1.symm hk
        · exact h1
      simp [findGroup, hk, ih this]

theorem mergeGroupD_Targets (endpoints : List Endpoint) (h : endpoints ≠ []) :
    (mergeGroupD endpoints).Targets = endpoints.flatMap fun ep => ep.Targets := by
  cases endpoints with
  | nil => exact absurd rfl h
  | cons first rest => rfl

theorem filter_eq_singleton_of_pairwise (same : Endpoint → Endpoint → Prop)
    [DecidableRel same] (hsymm : ∀ a b, same a b → same b a) (hrefl : ∀ a, same a a)
    (l : List Endpoint) (hpw : l.Pairwise fun a b => ¬ same a b) (ep : Endpoint)
    (hep : ep ∈ l) : l.filter (fun x => decide (same ep x)) = [ep] := by
  induction l with
  | nil => simp at hep
  | cons a rest ih =>
    obtain ⟨ha, hrest⟩ := List.pairwise_cons.1 hpw
    rcases List.mem_cons.1 hep with h | h
    · subst h
      have : rest.filter (fun x => decide (same ep x)) = [] := by
        rw [List.filter_eq_nil_iff]
        intro x hx
        simpa using ha x hx
      simp [List.filter_cons, hrefl, this]
    · have hne : ¬ same ep a := fun hs => ha ep h (hsymm _ _ hs)
      simp [List.filter_cons, hne, ih hrest h]

theorem merged_pairwise {f : DomainFilter} {records : List Record} {groups : Groups}
    (hinv : GroupsInv f records groups) :
    (groups.map fun entry => mergeGroupD entry.2).Pairwise
      fun a b => ¬ (a.DNSName = b.DNSName ∧ a.RecordType = b.RecordType) := by
  rw [List.pairwise_map]
  have hkeys : groups.Pairwise fun a b => a.1 ≠ b.1 := List.pairwise_map.1 hinv.1
  have hkey : ∀ entry ∈ groups,
      (mergeGroupD entry.2).DNSName ++ (mergeGroupD entry.2).RecordType = entry.1 := by
    intro entry he
    obtain ⟨first, hfirst, h1, h2⟩ := mergeGroupD_spec entry.2 (hinv.2 entry he).1
    rw [h1, h2]
    exact ((hinv.2 entry he).2 first hfirst).1
  refine List.Pairwise.imp_of_mem ?_ hkeys
  intro a b ha hb hne hsame
  apply hne
  rw [← hkey a ha, ← hkey b hb, hsame.1, hsame.2]

theorem mem_survivors (f : DomainFilter) (records : List Record) (record : Record) :
    record ∈ survivors f records ↔
      record ∈ records ∧ f.passes (recordToEndpoint record).DNSName := by
  unfold survivors
  rw [List.mem_filter, ← DomainFilter.skips_eq_false_iff]
  simp

theorem flatMap_Targets_filter_key (key : String) (l : List Record) :
    (((l.map recordToEndpoint).filter
        fun ep => decide (ep.DNSName ++ ep.RecordType = key)).flatMap fun ep => ep.Targets) =
      (l.filter fun record => decide ((recordToEndpoint record).DNSName ++
        (recordToEndpoint record).RecordType = key)).map fun record => record.RData := by
  induction l with
  | nil => rfl
  | cons record rest ih =>
    by_cases h : (recordToEndpoint record).DNSName ++ (recordToEndpoint record).RecordType = key
    · simp only [List.map_cons, List.filter_cons, h, decide_True, if_true, List.flatMap_cons, ih]
      rfl
    · simp only [List.map_cons, List.filter_cons, h, decide_False, Bool.false_eq_true, if_false,
        ih]

theorem group_of_survivor (f : DomainFilter) (records : List Record) (r : Record)
    (hr : r ∈ survivors f records) :
    ∃ eps, ((recordToEndpoint r).DNSName ++ (recordToEndpoint r).RecordType, eps) ∈
        groupRecords f records [] ∧
      eps = ((survivors f records).map recordToEndpoint).filter (fun ep =>
        decide (ep.DNSName ++ ep.RecordType =
          (recordToEndpoint r).DNSName ++ (recordToEndpoint r).RecordType)) := by
  have hk : (recordToEndpoint r).DNSName ++ (recordToEndpoint r).RecordType ∈
      (groupRecords f records []).map Prod.fst :=
    (keys_groupRecords _ _ records []).2 (Or.inr ⟨r, hr, rfl⟩)
  have hfind := findGroup_groupRecords f
    ((recordToEndpoint r).DNSName ++ (recordToEndpoint r).RecordType) records []
  simp only [findGroup, List.nil_append] at hfind
  exact ⟨_, mem_of_mem_keys _ _ hk, hfind⟩

/-! ## Claims on `ApplyChanges` and the update normalisation -/

theorem mockDNSClient_AllSucceed (allRecords : List Record) (zoneRecords : String → List Record)
    (allZones : List Zone) : (mockDNSClient none allRecords zoneRecords allZones).AllSucceed :=
  ⟨fun _ => ⟨_, rfl⟩, fun _ => ⟨_, rfl⟩, fun _ _ _ => ⟨_, rfl⟩, fun _ _ => ⟨_, rfl⟩,
    fun _ _ _ => rfl, fun _ _ _ => rfl⟩

theorem ApplyChanges_create_only {σ : Type} (p : Provider σ) (eps : List Endpoint) (s : σ) :
    p.ApplyChanges { Create := eps, UpdateOld := [], UpdateNew := [], Delete := [] } s =
      some ⟨(createRecords p.client (createEndpointLoop p.client p.domainFilter eps s).records
              (createEndpointLoop p.client p.domainFilter eps s).state).state,
            (createEndpointLoop p.client p.domainFilter eps s).calls ++
              (createRecords p.client (createEndpointLoop p.client p.domainFilter eps s).records
                (createEndpointLoop p.client p.domainFilter eps s).state).calls,
            (createRecords p.client (createEndpointLoop p.client p.domainFilter eps s).records
              (createEndpointLoop p.client p.domainFilter eps s).state).err⟩ := by
  simp [Provider.ApplyChanges, GetCreateDeleteSetsFromChanges, updateLoop, deleteEndpointLoop,
    deleteRecords]

/-- C1. With a client whose calls all succeed, a changeset whose only entry is a Create endpoint
`e` that passes the domain filter and whose zone lookup returns `zone0 :: zones` makes
`ApplyChanges` return no error, issue no `DeleteRecord` call, and issue one `CreateRecord` call
per target of `e`, in target order, each for zone `zone0.Name` with a record of that zone, of
name `e.DNSName` without the suffix `"." + zone0.Name`, of `e`'s type and TTL, and of that
target. -/
theorem ApplyChanges_create_one_record_per_target {σ : Type} (p : Provider σ) (e : Endpoint)
    (zone0 : Zone) (zones : List Zone) (s : σ)
    (hsucc : p.client.AllSucceed)
    (hpass : p.domainFilter.passes e.DNSName)
    (hz : (p.client.GetZonesByDomainName e.DNSName s).1 = .ok (zone0 :: zones)) :
    ∃ r, p.ApplyChanges { Create := [e], UpdateOld := [], UpdateNew := [], Delete := [] } s
        = some r ∧
      r.err = none ∧
      deleteCalls r.calls = [] ∧
      createCalls r.calls = e.Targets.map fun target =>
        (zone0.Name,
          ({ Identifier := "", ZoneName := zone0.Name,
             Name := TrimSuffix e.DNSName ("." ++ zone0.Name),
             Type_ := e.RecordType, TTL := e.RecordTTL, RData := target } : Record)) := by
  have hskip := (DomainFilter.skips_eq_false_iff _ _).2 hpass
  have hcr := createRecords_of_succeed p.client hsucc.2.2.2.2.2 (recordsForEndpoint e zone0)
    (p.client.GetZonesByDomainName e.DNSName s).2
  have hloop : createEndpointLoop p.client p.domainFilter [e] s =
      ⟨(p.client.GetZonesByDomainName e.DNSName s).2, [Call.GetZonesByDomainName e.DNSName],
        recordsForEndpoint e zone0⟩ := by
    simp [createEndpointLoop, hskip, hz]
  refine ⟨_, ApplyChanges_create_only p [e] s, ?_, ?_, ?_⟩
  · simp only [hloop, hcr.2]
  · simp only [hloop, hcr.1, deleteCalls_append, deleteCalls_map_CreateRecord]
    rfl
  · simp only [hloop, hcr.1, createCalls_append, createCalls_map_CreateRecord]
    simp [createCalls, recordsForEndpoint]

theorem ApplyChanges_create_one_record_per_target_witness :
    (scenarioProvider noDomainFilter).domainFilter.passes "a.de" ∧
    ∃ r, (scenarioProvider noDomainFilter).ApplyChanges
          { Create := [aDe ["1.2.3.4", "5.6.7.8"]], UpdateOld := [], UpdateNew := [],
            Delete := [] } () = some r ∧
      r.err = none ∧
      deleteCalls r.calls = [] ∧
      createCalls r.calls =
        [("de", { Identifier := "", ZoneName := "de", Name := "a", Type_ := "A", TTL := 300,
                  RData := "1.2.3.4" }),
         ("de", { Identifier := "", ZoneName := "de", Name := "a", Type_ := "A", TTL := 300,
                  RData := "5.6.7.8" })] :=
  ⟨Or.inl rfl,
    ApplyChanges_create_one_record_per_target (scenarioProvider noDomainFilter)
      (aDe ["1.2.3.4", "5.6.7.8"]) ⟨"de"⟩ [] () (mockDNSClient_AllSucceed _ _ _) (Or.inl rfl)
      rfl⟩

theorem ApplyChanges_delete_only {σ : Type} (p : Provider σ) (eps : List Endpoint) (s : σ)
    (h : (deleteRecords p.client (deleteEndpointLoop p.client p.domainFilter eps s).records
      (deleteEndpointLoop p.client p.domainFilter eps s).state).err = none) :
    p.ApplyChanges { Create := [], UpdateOld := [], UpdateNew := [], Delete := eps } s =
      some ⟨(deleteRecords p.client (deleteEndpointLoop p.client p.domainFilter eps s).records
              (deleteEndpointLoop p.client p.domainFilter eps s).state).state,
            (deleteEndpointLoop p.client p.domainFilter eps s).calls ++
              (deleteRecords p.client (deleteEndpointLoop p.client p.domainFilter eps s).records
                (deleteEndpointLoop p.client p.domainFilter eps s).state).calls,
            none⟩ := by
  simp [Provider.ApplyChanges, GetCreateDeleteSetsFromChanges, updateLoop, h,
    createEndpointLoop, createRecords]

/-- C2. With a client whose calls all succeed, a changeset whose only entry is a Delete endpoint
`e` that passes the domain filter makes `ApplyChanges` return no error, issue no `CreateRecord`
call, and issue exactly the calls `DeleteRecord(r.ZoneName, r.Identifier)` for the fetched
records `r` of type `e.RecordType` whose `RData` is a target of `e`, in discovery order: the
candidate zones in the order the zone lookup returned them and, within a zone, the records in
the order the record lookup for that zone and the relative name returns them. -/
theorem ApplyChanges_delete_matching_records {σ : Type} (p : Provider σ) (e : Endpoint)
    (zones : List Zone) (recs : Zone → List Record) (s : σ)
    (hsucc : p.client.AllSucceed)
    (hpass : p.domainFilter.passes e.DNSName)
    (hz : (p.client.GetZonesByDomainName e.DNSName s).1 = .ok zones)
    (hr : ∀ zone ∈ zones, ∀ s', (p.client.GetRecordsByZoneNameAndName zone.Name
      (TrimSuffix e.DNSName ("." ++ zone.Name)) s').1 = .ok (recs zone)) :
    ∃ r, p.ApplyChanges { Create := [], UpdateOld := [], UpdateNew := [], Delete := [e] } s
        = some r ∧
      r.err = none ∧
      createCalls r.calls = [] ∧
      deleteCalls r.calls =
        ((zones.flatMap recs).filter fun record =>
          decide (record.Type_ = e.RecordType ∧ record.RData ∈ e.Targets)).map
            fun record => (record.ZoneName, record.Identifier) := by
  have hskip := (DomainFilter.skips_eq_false_iff _ _).2 hpass
  have hzl := deleteZoneLoop_of_succeed p.client e recs zones hr
    (p.client.GetZonesByDomainName e.DNSName s).2
  have hloop : (deleteEndpointLoop p.client p.domainFilter [e] s).calls =
        Call.GetZonesByDomainName e.DNSName :: zones.map (fun zone =>
          Call.GetRecordsByZoneNameAndName zone.Name (TrimSuffix e.DNSName ("." ++ zone.Name))) ∧
      (deleteEndpointLoop p.client p.domainFilter [e] s).records =
        zones.flatMap fun zone => matchingRecords e (recs zone) := by
    simp [deleteEndpointLoop, hskip, hz, hzl.1, hzl.2]
  have hdel := deleteRecords_of_succeed p.client hsucc.2.2.2.2.1
    (deleteEndpointLoop p.client p.domainFilter [e] s).records
    (deleteEndpointLoop p.client p.domainFilter [e] s).state
  refine ⟨_, ApplyChanges_delete_only p [e] s hdel.2, rfl, ?_, ?_⟩
  · simp only [hloop.1, hdel.1, createCalls_append, createCalls_map_DeleteRecord,
      List.append_nil]
    simp [createCalls, createCalls_map_GetRecordsByZoneNameAndName]
  · simp only [hloop.1, hdel.1, deleteCalls_append, deleteCalls_map_DeleteRecord]
    simp only [deleteCalls, deleteCalls_map_GetRecordsByZoneNameAndName, List.nil_append,
      hloop.2, filter_flatMap_eq, matchingRecords_eq_filter]

theorem ApplyChanges_delete_matching_records_witness :
    (scenarioProvider noDomainFilter).domainFilter.passes "a.de" ∧
    ∃ r, (scenarioProvider noDomainFilter).ApplyChanges
          { Create := [], UpdateOld := [], UpdateNew := [],
            Delete := [aDe ["1.2.3.4", "5.6.7.8"]] } () = some r ∧
      r.err = none ∧
      createCalls r.calls = [] ∧
      deleteCalls r.calls = [("de", "0")] :=
  ⟨Or.inl rfl,
    ApplyChanges_delete_matching_records (scenarioProvider noDomainFilter)
      (aDe ["1.2.3.4", "5.6.7.8"]) [⟨"de"⟩] (fun zone => scenarioZoneRecords zone.Name) ()
      (mockDNSClient_AllSucceed _ _ _) (Or.inl rfl) rfl
      (by intro zone hzone s'; simp only [List.mem_singleton] at hzone; subst hzone; rfl)⟩

theorem deleteEndpointLoop_all_skipped {σ : Type} (client : DNSService σ) (f : DomainFilter)
    (eps : List Endpoint) (s : σ) (h : ∀ ep ∈ eps, f.skips ep.DNSName = true) :
    deleteEndpointLoop client f eps s = ⟨s, [], []⟩ := by
  induction eps with
  | nil => rfl
  | cons ep rest ih =>
    have h1 := h ep (List.mem_cons_self _ _)
    simp [deleteEndpointLoop, h1, ih fun ep' hm => h ep' (List.mem_cons_of_mem _ hm)]

theorem createEndpointLoop_all_skipped {σ : Type} (client : DNSService σ) (f : DomainFilter)
    (eps : List Endpoint) (s : σ) (h : ∀ ep ∈ eps, f.skips ep.DNSName = true) :
    createEndpointLoop client f eps s = ⟨s, [], []⟩ := by
  induction eps with
  | nil => rfl
  | cons ep rest ih =>
    have h1 := h ep (List.mem_cons_self _ _)
    simp [createEndpointLoop, h1, ih fun ep' hm => h ep' (List.mem_cons_of_mem _ hm)]

theorem ApplyChanges_all_skipped {σ : Type} (p : Provider σ) (changes : Changes) (s : σ)
    (toCreate toDelete : List Endpoint)
    (hsets : GetCreateDeleteSetsFromChanges changes = some (toCreate, toDelete))
    (hc : ∀ ep ∈ toCreate, p.domainFilter.skips ep.DNSName = true)
    (hd : ∀ ep ∈ toDelete, p.domainFilter.skips ep.DNSName = true) :
    p.ApplyChanges changes s = some ⟨s, [], none⟩ := by
  simp [Provider.ApplyChanges, hsets, deleteEndpointLoop_all_skipped _ _ _ _ hd,
    createEndpointLoop_all_skipped _ _ _ _ hc, deleteRecords, createRecords]

/-- C3. A changeset with empty Create and Delete lists whose update pairs all have the same DNS
name, record type and TTL and target lists that are permutations of each other is normalised
to an empty create-list and an empty delete-list, and `ApplyChanges` makes no client call,
leaves the client untouched and returns no error. -/
theorem ApplyChanges_unchanged_updates_no_call {σ : Type} (p : Provider σ) (changes : Changes)
    (s : σ)
    (hcreate : changes.Create = []) (hdelete : changes.Delete = [])
    (hlen : changes.UpdateOld.length = changes.UpdateNew.length)
    (hsame : ∀ pair ∈ changes.UpdateOld.zip changes.UpdateNew,
      pair.1.DNSName = pair.2.DNSName ∧ pair.1.RecordType = pair.2.RecordType ∧
        pair.1.RecordTTL = pair.2.RecordTTL ∧ pair.1.Targets.Perm pair.2.Targets) :
    GetCreateDeleteSetsFromChanges changes = some ([], []) ∧
      p.ApplyChanges changes s = some ⟨s, [], none⟩ := by
  have hnil : changedPairs changes.UpdateOld changes.UpdateNew = [] := by
    apply changedPairs_eq_nil
    intro pair hp hdiff
    obtain ⟨h1, h2, h3, h4⟩ := hsame pair hp
    rcases hdiff with h | h | h | h
    · exact h h1
    · exact h h2
    · exact h h3
    · exact h h4
  have hsets : GetCreateDeleteSetsFromChanges changes = some ([], []) := by
    unfold GetCreateDeleteSetsFromChanges
    rw [updateLoop_eq _ _ _ _ hlen, hnil, hcreate, hdelete]
    rfl
  exact ⟨hsets, ApplyChanges_all_skipped p changes s [] [] hsets (by simp) (by simp)⟩

theorem ApplyChanges_unchanged_updates_no_call_witness :
    GetCreateDeleteSetsFromChanges
        { Create := [], UpdateOld := [aDe ["1.2.3.4", "5.6.7.8"]],
          UpdateNew := [aDe ["5.6.7.8", "1.2.3.4"]], Delete := [] } = some ([], []) ∧
      (scenarioProvider noDomainFilter).ApplyChanges
        { Create := [], UpdateOld := [aDe ["1.2.3.4", "5.6.7.8"]],
          UpdateNew := [aDe ["5.6.7.8", "1.2.3.4"]], Delete := [] } () = some ⟨(), [], none⟩ :=
  ApplyChanges_unchanged_updates_no_call (scenarioProvider noDomainFilter)
    { Create := [], UpdateOld := [aDe ["1.2.3.4", "5.6.7.8"]],
      UpdateNew := [aDe ["5.6.7.8", "1.2.3.4"]], Delete := [] } () rfl rfl rfl (by decide)

/-- C4. With update lists of equal length, `GetCreateDeleteSetsFromChanges` returns
`changes.Create` followed by the new halves, and `changes.Delete` followed by the old halves, of
exactly the update pairs that differ in DNS name, record type, TTL or target multiset, in index
order. -/
theorem GetCreateDeleteSetsFromChanges_changed_pairs (changes : Changes)
    (hlen : changes.UpdateOld.length = changes.UpdateNew.length) :
    GetCreateDeleteSetsFromChanges changes =
      some (changes.Create ++
              ((changes.UpdateOld.zip changes.UpdateNew).filter
                fun pair => decide (Differ pair.1 pair.2)).map Prod.snd,
            changes.Delete ++
              ((changes.UpdateOld.zip changes.UpdateNew).filter
                fun pair => decide (Differ pair.1 pair.2)).map Prod.fst) :=
  updateLoop_eq changes.UpdateOld changes.UpdateNew changes.Create changes.Delete hlen

theorem GetCreateDeleteSetsFromChanges_changed_pairs_witness :
    GetCreateDeleteSetsFromChanges
        { Create := [aDe ["7.7.7.7"]],
          UpdateOld := [aDe ["1.2.3.4", "5.6.7.8"], aDe ["1.2.3.4"]],
          UpdateNew := [aDe ["5.6.7.8", "1.2.3.4"], aDe ["1.2.3.5"]],
          Delete := [aDe ["8.8.8.8"]] } =
      some ([aDe ["7.7.7.7"], aDe ["1.2.3.5"]], [aDe ["8.8.8.8"], aDe ["1.2.3.4"]]) :=
  GetCreateDeleteSetsFromChanges_changed_pairs
    { Create := [aDe ["7.7.7.7"]],
      UpdateOld := [aDe ["1.2.3.4", "5.6.7.8"], aDe ["1.2.3.4"]],
      UpdateNew := [aDe ["5.6.7.8", "1.2.3.4"], aDe ["1.2.3.5"]],
      Delete := [aDe ["8.8.8.8"]] } rfl

/-- C9. With a configured domain filter that matches the DNS name of no endpoint of the
changeset (Create, Delete, UpdateOld and UpdateNew, the update lists of equal length),
`ApplyChanges` makes no client call, leaves the client untouched and returns no error. -/
theorem ApplyChanges_filtered_out_no_call {σ : Type} (p : Provider σ) (changes : Changes)
    (s : σ)
    (hconf : p.domainFilter.IsConfigured = true)
    (hlen : changes.UpdateOld.length = changes.UpdateNew.length)
    (hnomatch : ∀ ep ∈ changes.Create ++ changes.Delete ++ changes.UpdateOld ++
      changes.UpdateNew, p.domainFilter.Match ep.DNSName = false) :
    p.ApplyChanges changes s = some ⟨s, [], none⟩ := by
  have hskip : ∀ ep ∈ changes.Create ++ changes.Delete ++ changes.UpdateOld ++
      changes.UpdateNew, p.domainFilter.skips ep.DNSName = true := by
    intro ep hep
    simp [DomainFilter.skips, hconf, hnomatch ep hep]
  have hpair : ∀ pair ∈ changedPairs changes.UpdateOld changes.UpdateNew,
      pair.1 ∈ changes.UpdateOld ∧ pair.2 ∈ changes.UpdateNew := by
    intro pair hp
    exact List.of_mem_zip (List.mem_filter.1 hp).1
  refine ApplyChanges_all_skipped p changes s _ _
    (updateLoop_eq changes.UpdateOld changes.UpdateNew changes.Create changes.Delete hlen)
    ?_ ?_
  · intro ep hep
    apply hskip
    rcases List.mem_append.1 hep with h | h
    · simp [h]
    · obtain ⟨pair, hp, rfl⟩ := List.mem_map.1 h
      simp [(hpair pair hp).2]
  · intro ep hep
    apply hskip
    rcases List.mem_append.1 hep with h | h
    · simp [h]
    · obtain ⟨pair, hp, rfl⟩ := List.mem_map.1 h
      simp [(hpair pair hp).1]

theorem ApplyChanges_filtered_out_no_call_witness :
    bDeDomainFilter.IsConfigured = true ∧ bDeDomainFilter.Match "a.de" = false ∧
      (scenarioProvider bDeDomainFilter).ApplyChanges
        { Create := [aDe ["7.7.7.7"]], UpdateOld := [aDe ["1.2.3.4"]],
          UpdateNew := [aDe ["1.2.3.5"]], Delete := [aDe ["9.9.9.9"]] } () =
        some ⟨(), [], none⟩ :=
  ⟨rfl, by decide,
    ApplyChanges_filtered_out_no_call (scenarioProvider bDeDomainFilter)
      { Create := [aDe ["7.7.7.7"]], UpdateOld := [aDe ["1.2.3.4"]],
        UpdateNew := [aDe ["1.2.3.5"]], Delete := [aDe ["9.9.9.9"]] } () rfl rfl (by decide)⟩

theorem createEndpointLoop_no_zone {σ : Type} (client : DNSService σ) (f : DomainFilter)
    (eps : List Endpoint)
    (h : ∀ ep ∈ eps, f.passes ep.DNSName ∧
      ∀ s, (client.GetZonesByDomainName ep.DNSName s).1 = .ok []) :
    ∀ s, (createEndpointLoop client f eps s).calls =
        eps.map (fun ep => Call.GetZonesByDomainName ep.DNSName) ∧
      (createEndpointLoop client f eps s).records = [] := by
  induction eps with
  | nil => intro s; simp [createEndpointLoop]
  | cons ep rest ih =>
    intro s
    obtain ⟨hp, hz⟩ := h ep (List.mem_cons_self _ _)
    have hskip := (DomainFilter.skips_eq_false_iff _ _).2 hp
    have := ih (fun ep' hm => h ep' (List.mem_cons_of_mem _ hm))
      (client.GetZonesByDomainName ep.DNSName s).2
    simp [createEndpointLoop, hskip, hz s, this.1, this.2]

/-- C10. A create-list endpoint `e` that passes the domain filter and whose zone lookup succeeds
with an empty list contributes its lookup and nothing else: the create loop queues no record
for `e` and goes on with the endpoints after `e`; `ApplyChanges` on the create-list `e :: rest`
behaves as on `rest` from the state after the lookup, with the same records created and the
same returned error; and a changeset whose create-list holds only such endpoints yields no
`CreateRecord` call, no `DeleteRecord` call and no error. -/
theorem ApplyChanges_create_without_zone_skipped {σ : Type} (p : Provider σ) (e : Endpoint)
    (rest : List Endpoint) (s : σ)
    (hpass : p.domainFilter.passes e.DNSName)
    (hz : (p.client.GetZonesByDomainName e.DNSName s).1 = .ok []) :
    (createEndpointLoop p.client p.domainFilter (e :: rest) s).records =
        (createEndpointLoop p.client p.domainFilter rest
          (p.client.GetZonesByDomainName e.DNSName s).2).records ∧
      (createEndpointLoop p.client p.domainFilter (e :: rest) s).calls =
        Call.GetZonesByDomainName e.DNSName ::
          (createEndpointLoop p.client p.domainFilter rest
            (p.client.GetZonesByDomainName e.DNSName s).2).calls ∧
      p.ApplyChanges { Create := e :: rest, UpdateOld := [], UpdateNew := [], Delete := [] } s =
        (p.ApplyChanges { Create := rest, UpdateOld := [], UpdateNew := [], Delete := [] }
            (p.client.GetZonesByDomainName e.DNSName s).2).map
          (fun r => ⟨r.state, Call.GetZonesByDomainName e.DNSName :: r.calls, r.err⟩) ∧
      ((∀ ep ∈ rest, p.domainFilter.passes ep.DNSName ∧
          ∀ s', (p.client.GetZonesByDomainName ep.DNSName s').1 = .ok []) →
        ∃ r, p.ApplyChanges
              { Create := e :: rest, UpdateOld := [], UpdateNew := [], Delete := [] } s
            = some r ∧
          r.err = none ∧ createCalls r.calls = [] ∧ deleteCalls r.calls = []) := by
  have hskip := (DomainFilter.skips_eq_false_iff _ _).2 hpass
  have hloop : createEndpointLoop p.client p.domainFilter (e :: rest) s =
      ⟨(createEndpointLoop p.client p.domainFilter rest
          (p.client.GetZonesByDomainName e.DNSName s).2).state,
        Call.GetZonesByDomainName e.DNSName ::
          (createEndpointLoop p.client p.domainFilter rest
            (p.client.GetZonesByDomainName e.DNSName s).2).calls,
        (createEndpointLoop p.client p.domainFilter rest
          (p.client.GetZonesByDomainName e.DNSName s).2).records⟩ := by
    simp [createEndpointLoop, hskip, hz]
  refine ⟨by rw [hloop], by rw [hloop], ?_, ?_⟩
  · rw [ApplyChanges_create_only, ApplyChanges_create_only, hloop]
    rfl
  · intro hrest
    have hr := createEndpointLoop_no_zone p.client p.domainFilter rest hrest
      (p.client.GetZonesByDomainName e.DNSName s).2
    refine ⟨_, ApplyChanges_create_only p (e :: rest) s, ?_, ?_, ?_⟩
    · simp [hloop, hr.2, createRecords]
    · simp [hloop, hr.1, hr.2, createRecords, createCalls,
        createCalls_map_GetZonesByDomainName]
    · simp [hloop, hr.1, hr.2, createRecords, deleteCalls,
        deleteCalls_map_GetZonesByDomainName]

theorem ApplyChanges_create_without_zone_skipped_witness :
    (scenarioProvider noDomainFilter).ApplyChanges
        { Create := [aCom, aDe ["1.2.3.4"]], UpdateOld := [], UpdateNew := [], Delete := [] } ()
      = some ⟨(), [Call.GetZonesByDomainName "a.com", Call.GetZonesByDomainName "a.de",
          Call.CreateRecord "de" ⟨"", "de", "a", "A", 300, "1.2.3.4"⟩], none⟩ ∧
    ∃ r, (scenarioProvider noDomainFilter).ApplyChanges
          { Create := [aCom], UpdateOld := [], UpdateNew := [], Delete := [] } () = some r ∧
      r.err = none ∧ createCalls r.calls = [] ∧ deleteCalls r.calls = [] :=
  ⟨(ApplyChanges_create_without_zone_skipped (scenarioProvider noDomainFilter) aCom
      [aDe ["1.2.3.4"]] () (Or.inl rfl) rfl).2.2.1,
    (ApplyChanges_create_without_zone_skipped (scenarioProvider noDomainFilter) aCom
      [] () (Or.inl rfl) rfl).2.2.2 (by simp)⟩

/-! ## Claims on `Records` and on zone resolution -/

/-- C5 (the code departs from the claim). `Records` keys its groups by the concatenation
`DNSName + RecordType`, so the records `a.de`/`AAAA`/`::1` and `a.deAAA`/`A`/`1.2.3.4` fall
into one group: whatever the map order, the result is the single endpoint `a.de`/`AAAA` with
both targets, and no endpoint stands for the pair (`a.deAAA`, `A`). -/
theorem Records_key_collision_merges_distinct_pairs (range : MapRange) :
    (Provider.Records ⟨mockDNSClient none collidingRecords (fun _ => []) [], noDomainFilter⟩
        range ()) =
      some (.ok [{ DNSName := "a.de", Targets := ["::1", "1.2.3.4"], RecordType := "AAAA",
                   RecordTTL := 300 }]) := by
  have hgroups : groupRecords noDomainFilter collidingRecords [] =
      [("a.deAAAA", [recordToEndpoint ⟨"1", "de", "a", "AAAA", 300, "::1"⟩,
        recordToEndpoint ⟨"2", "deAAA", "a", "A", 300, "1.2.3.4"⟩])] := by
    decide
  have horder := List.perm_singleton.1 (hgroups ▸ range.perm
    (groupRecords noDomainFilter collidingRecords []))
  have hget : ((mockDNSClient none collidingRecords (fun _ => []) []).GetRecords ()).1 =
      .ok collidingRecords := rfl
  simp only [Provider.Records, hget]
  rw [hgroups, horder]
  rfl

/-- What `Records` does when the group keys do not collide, that is when surviving records with
the same concatenation `DNSName + RecordType` have the same name and the same type: every
(name, type) pair of a surviving record has exactly one endpoint, whose targets are the `RData`
of the surviving records of that pair in input order, and every endpoint stands for the pair of
some surviving record. -/
theorem Records_groups_by_name_and_type_of_injective_keys {σ : Type} (p : Provider σ)
    (range : MapRange) (s : σ) (records : List Record)
    (hget : (p.client.GetRecords s).1 = .ok records)
    (hinj : ∀ r₁ ∈ survivors p.domainFilter records, ∀ r₂ ∈ survivors p.domainFilter records,
      (recordToEndpoint r₁).DNSName ++ r₁.Type_ = (recordToEndpoint r₂).DNSName ++ r₂.Type_ →
        (recordToEndpoint r₁).DNSName = (recordToEndpoint r₂).DNSName ∧ r₁.Type_ = r₂.Type_) :
    ∃ endpoints, p.Records range s = some (.ok endpoints) ∧
      (∀ r ∈ survivors p.domainFilter records,
        (endpoints.filter fun ep =>
            decide ((recordToEndpoint r).DNSName = ep.DNSName ∧ r.Type_ = ep.RecordType)).map
              (fun ep => ep.Targets) =
          [((survivors p.domainFilter records).filter fun r' =>
              decide ((recordToEndpoint r').DNSName = (recordToEndpoint r).DNSName ∧
                r'.Type_ = r.Type_)).map fun r' => r'.RData]) ∧
      ∀ ep ∈ endpoints, ∃ r ∈ survivors p.domainFilter records,
        ep.DNSName = (recordToEndpoint r).DNSName ∧ ep.RecordType = r.Type_ := by
  obtain ⟨hrun, hinv⟩ := Records_eq_some p range s records hget
  refine ⟨_, hrun, ?_, ?_⟩
  · intro r hr
    obtain ⟨eps, hentry0, heps⟩ := group_of_survivor p.domainFilter records r hr
    have hentry := (range.perm _).mem_iff.2 hentry0
    have hne : eps ≠ [] := (hinv.2 _ hentry).1
    obtain ⟨first, hfirst, hname, htype⟩ := mergeGroupD_spec eps hne
    rw [heps] at hfirst
    obtain ⟨r', hr', hproj⟩ := List.mem_map.1 (List.mem_filter.1 hfirst).1
    have hkey' := of_decide_eq_true (List.mem_filter.1 hfirst).2
    rw [← hproj] at hkey'
    obtain ⟨hn, ht⟩ := hinj r' hr' r hr hkey'
    have hname' : (mergeGroupD eps).DNSName = (recordToEndpoint r).DNSName := by
      rw [hname, ← hproj]; exact hn
    have htype' : (mergeGroupD eps).RecordType = r.Type_ := by
      rw [htype, ← hproj]; exact ht
    have hmem : mergeGroupD eps ∈ (range.order (groupRecords p.domainFilter records [])).map
        fun entry => mergeGroupD entry.2 := List.mem_map.2 ⟨_, hentry, rfl⟩
    have hsingle := filter_eq_singleton_of_pairwise
      (fun a b => a.DNSName = b.DNSName ∧ a.RecordType = b.RecordType)
      (fun a b h => ⟨h.1.symm, h.2.symm⟩) (fun a => ⟨rfl, rfl⟩) _ (merged_pairwise hinv) _ hmem
    have hfilter : ((range.order (groupRecords p.domainFilter records [])).map
          fun entry => mergeGroupD entry.2).filter (fun ep =>
            decide ((recordToEndpoint r).DNSName = ep.DNSName ∧ r.Type_ = ep.RecordType)) =
        [mergeGroupD eps] := by
      rw [← hsingle]
      apply List.filter_congr
      intro x _
      rw [decide_eq_decide]
      show _ ↔ (mergeGroupD eps).DNSName = x.DNSName ∧ (mergeGroupD eps).RecordType = x.RecordType
      rw [hname', htype']
    rw [hfilter, List.map_singleton, mergeGroupD_Targets _ hne, heps,
      flatMap_Targets_filter_key]
    congr 2
    apply List.filter_congr
    intro x hx
    rw [decide_eq_decide]
    constructor
    · intro h
      exact hinj x hx r hr h
    · intro h
      rw [h.1]
      show _ ++ x.Type_ = _ ++ r.Type_
      rw [h.2]
  · intro ep hep
    obtain ⟨entry, hentry, rfl⟩ := List.mem_map.1 hep
    obtain ⟨first, hfirst, h1, h2⟩ := mergeGroupD_spec entry.2 (hinv.2 entry hentry).1
    obtain ⟨_, hpass, record, hrec, hproj⟩ := (hinv.2 entry hentry).2 first hfirst
    refine ⟨record, (mem_survivors _ _ _).2 ⟨hrec, hproj ▸ hpass⟩, ?_, ?_⟩
    · rw [h1, hproj]
    · rw [h2, hproj]
      rfl

theorem Records_groups_by_name_and_type_of_injective_keys_example :
    ∃ endpoints, (Provider.Records ⟨mockDNSClient none scenarioRecords (fun _ => []) [],
        noDomainFilter⟩ MapRange.reverseOrder ()) = some (.ok endpoints) ∧
      (∀ r ∈ survivors noDomainFilter scenarioRecords,
        (endpoints.filter fun ep =>
            decide ((recordToEndpoint r).DNSName = ep.DNSName ∧ r.Type_ = ep.RecordType)).map
              (fun ep => ep.Targets) =
          [((survivors noDomainFilter scenarioRecords).filter fun r' =>
              decide ((recordToEndpoint r').DNSName = (recordToEndpoint r).DNSName ∧
                r'.Type_ = r.Type_)).map fun r' => r'.RData]) ∧
      ∀ ep ∈ endpoints, ∃ r ∈ survivors noDomainFilter scenarioRecords,
        ep.DNSName = (recordToEndpoint r).DNSName ∧ ep.RecordType = r.Type_ :=
  Records_groups_by_name_and_type_of_injective_keys
    ⟨mockDNSClient none scenarioRecords (fun _ => []) [], noDomainFilter⟩
    MapRange.reverseOrder () scenarioRecords rfl (by decide)

/-- C6. When `GetRecords` succeeds, `Records` returns a list (it does not panic) in which no two
endpoints at different positions have both the same `DNSName` and the same `RecordType`,
whatever the domain filter and the map order. -/
theorem Records_no_two_endpoints_share_name_and_type {σ : Type} (p : Provider σ)
    (range : MapRange) (s : σ) (records : List Record)
    (hget : (p.client.GetRecords s).1 = .ok records) :
    ∃ endpoints, p.Records range s = some (.ok endpoints) ∧
      endpoints.Pairwise fun a b => ¬ (a.DNSName = b.DNSName ∧ a.RecordType = b.RecordType) := by
  obtain ⟨hrun, hinv⟩ := Records_eq_some p range s records hget
  exact ⟨_, hrun, merged_pairwise hinv⟩

theorem Records_no_two_endpoints_share_name_and_type_witness :
    ∃ endpoints, (Provider.Records ⟨mockDNSClient none scenarioRecords (fun _ => []) [],
        noDomainFilter⟩ MapRange.reverseOrder ()) = some (.ok endpoints) ∧
      endpoints.Pairwise fun a b => ¬ (a.DNSName = b.DNSName ∧ a.RecordType = b.RecordType) :=
  Records_no_two_endpoints_share_name_and_type
    ⟨mockDNSClient none scenarioRecords (fun _ => []) [], noDomainFilter⟩
    MapRange.reverseOrder () scenarioRecords rfl

/-- C7. When `GetRecords` succeeds with `records`, `Records` returns a list (it does not panic)
in which every endpoint has a DNS name that the domain filter matches, unless the filter is not
configured; that name is the fully-qualified name of one of the records: its zone name when its
relative name is `"@"` or empty, and `Name + "." + ZoneName` otherwise. -/
theorem Records_endpoints_pass_domain_filter {σ : Type} (p : Provider σ) (range : MapRange)
    (s : σ) (records : List Record) (hget : (p.client.GetRecords s).1 = .ok records) :
    ∃ endpoints, p.Records range s = some (.ok endpoints) ∧
      ∀ ep ∈ endpoints,
        (p.domainFilter.Match ep.DNSName = true ∨ p.domainFilter.IsConfigured = false) ∧
        ∃ record ∈ records, ep.DNSName =
          if record.Name = "@" ∨ record.Name = "" then record.ZoneName
          else record.Name ++ "." ++ record.ZoneName := by
  obtain ⟨hrun, hinv⟩ := Records_eq_some p range s records hget
  refine ⟨_, hrun, ?_⟩
  intro ep hep
  obtain ⟨entry, hentry, rfl⟩ := List.mem_map.1 hep
  obtain ⟨first, hfirst, h1, _⟩ := mergeGroupD_spec entry.2 (hinv.2 entry hentry).1
  obtain ⟨_, hpass, record, hrec, hproj⟩ := (hinv.2 entry hentry).2 first hfirst
  rw [h1]
  refine ⟨hpass.symm, record, hrec, ?_⟩
  rw [hproj]
  rfl

theorem Records_endpoints_pass_domain_filter_witness :
    ∃ endpoints, (Provider.Records ⟨mockDNSClient none scenarioRecords (fun _ => []) [],
        ⟨true, fun name => HasSuffix name "b.de"⟩⟩ MapRange.insertionOrder ())
          = some (.ok endpoints) ∧
      ∀ ep ∈ endpoints,
        (HasSuffix ep.DNSName "b.de" = true ∨ true = false) ∧
        ∃ record ∈ scenarioRecords, ep.DNSName =
          if record.Name = "@" ∨ record.Name = "" then record.ZoneName
          else record.Name ++ "." ++ record.ZoneName :=
  Records_endpoints_pass_domain_filter
    ⟨mockDNSClient none scenarioRecords (fun _ => []) [],
      ⟨true, fun name => HasSuffix name "b.de"⟩⟩
    MapRange.insertionOrder () scenarioRecords rfl

theorem HasSuffix_iff (s suffix : String) : HasSuffix s suffix = true ↔ suffix.data <:+ s.data := by
  unfold HasSuffix
  exact List.isSuffixOf_iff_suffix

theorem head_longest_of_sorted (zones : List Zone)
    (h : zones.Pairwise fun a b => len b.Name ≤ len a.Name) :
    ∀ first ∈ zones.head?, ∀ zone ∈ zones, len zone.Name ≤ len first.Name := by
  cases zones with
  | nil => intro first hf; simp at hf
  | cons z rest =>
    intro first hf zone hz
    simp only [List.head?_cons, Option.mem_def, Option.some.injEq] at hf
    subst hf
    rcases List.mem_cons.1 hz with h1 | h1
    · rw [h1]
    · exact (List.pairwise_cons.1 h).1 zone h1

theorem sorted_pair_de_aDe (zones : List Zone)
    (hperm : zones.Perm [⟨"de"⟩, ⟨"a.de"⟩])
    (hsorted : zones.Pairwise fun a b => len b.Name ≤ len a.Name) :
    zones = [⟨"a.de"⟩, ⟨"de"⟩] := by
  obtain ⟨x, y, rfl⟩ := List.length_eq_two.1 hperm.length_eq
  have hx : x ∈ [(⟨"de"⟩ : Zone), ⟨"a.de"⟩] := hperm.mem_iff.1 (by simp)
  have hy : y ∈ [(⟨"de"⟩ : Zone), ⟨"a.de"⟩] := hperm.mem_iff.1 (by simp)
  have hle : len y.Name ≤ len x.Name := by
    have := List.pairwise_cons.1 hsorted
    exact this.1 y (by simp)
  simp only [List.mem_cons, List.mem_singleton, List.not_mem_nil, or_false] at hx hy
  rcases hx with rfl | rfl <;> rcases hy with rfl | rfl
  · exact absurd hperm (by decide)
  · exact absurd hle (by decide)
  · rfl
  · exact absurd hperm (by decide)

/-- C8. When `GetZones` returned `allZones`, `GetZonesByDomainName` returns a permutation of
exactly the zones of `allZones` whose name is a string suffix of the domain name, arranged so
that the zone-name lengths are non-increasing; so the first result has a name at least as long
as any other result, and with zones `de` and `a.de` and the domain name `a.de` the first result
is `a.de`. This holds for every `sort.Slice` that meets its contract. -/
theorem GetZonesByDomainName_suffix_zones_longest_first (sort : SliceSorter)
    (allZones : List Zone) (domainName : String) :
    (∃ zones, DNSClient.GetZonesByDomainName sort (.ok allZones) domainName = .ok zones ∧
      zones.Perm (allZones.filter fun zone => decide (zone.Name.data <:+ domainName.data)) ∧
      zones.Pairwise (fun a b => len b.Name ≤ len a.Name) ∧
      ∀ first ∈ zones.head?, ∀ zone ∈ zones, len zone.Name ≤ len first.Name) ∧
    DNSClient.GetZonesByDomainName sort (.ok [⟨"de"⟩, ⟨"a.de"⟩]) "a.de" =
      .ok [⟨"a.de"⟩, ⟨"de"⟩] := by
  have hfilter : ∀ (zs : List Zone) (d : String),
      (zs.filter fun zone => HasSuffix d zone.Name) =
        zs.filter fun zone => decide (zone.Name.data <:+ d.data) := by
    intro zs d
    apply List.filter_congr
    intro zone _
    by_cases hs : zone.Name.data <:+ d.data
    · simp [hs, (HasSuffix_iff d zone.Name).2 hs]
    · have : HasSuffix d zone.Name = false := by
        rw [← Bool.not_eq_true]
        exact fun h => hs ((HasSuffix_iff d zone.Name).1 h)
      simp [hs, this]
  have hsorted : ∀ zs : List Zone,
      (sort.Slice zs fun zi zj => decide (len zi.Name > len zj.Name)).Pairwise
        fun a b => len b.Name ≤ len a.Name := by
    intro zs
    have := sort.sorted zs (fun zi zj => decide (len zi.Name > len zj.Name))
      (by intro a b h; simp only [decide_eq_true_eq, decide_eq_false_iff_not] at h ⊢; omega)
      (by intro a b c h1 h2; simp only [decide_eq_false_iff_not] at h1 h2 ⊢; omega)
    refine this.imp ?_
    intro a b h
    simp only [decide_eq_false_iff_not] at h
    omega
  refine ⟨⟨_, rfl, ?_, hsorted _, head_longest_of_sorted _ (hsorted _)⟩, ?_⟩
  · rw [← hfilter]
    exact sort.perm _ _
  · have hf : ([(⟨"de"⟩ : Zone), ⟨"a.de"⟩].filter fun zone => HasSuffix "a.de" zone.Name) =
        [⟨"de"⟩, ⟨"a.de"⟩] := by decide
    simp only [DNSClient.GetZonesByDomainName, hf]
    exact congrArg Except.ok (sorted_pair_de_aDe _ (sort.perm _ _) (hsorted _))

theorem GetZonesByDomainName_insertion_example :
    DNSClient.GetZonesByDomainName SliceSorter.insertion
        (.ok [⟨"de"⟩, ⟨"com"⟩, ⟨"x.a.de"⟩, ⟨"a.de"⟩]) "x.a.de" =
      .ok [⟨"x.a.de"⟩, ⟨"a.de"⟩, ⟨"de"⟩] := by
  rfl

/-! ## Lemmas on the shape of the call log -/

theorem deleteZoneLoop_calls_no_mutation {σ : Type} (client : DNSService σ) (ep : Endpoint)
    (zones : List Zone) :
    ∀ s, deleteCalls (deleteZoneLoop client ep zones s).calls = [] ∧
      createCalls (deleteZoneLoop client ep zones s).calls = [] := by
  induction zones with
  | nil => intro s; exact ⟨rfl, rfl⟩
  | cons zone rest ih =>
    intro s
    simp only [deleteZoneLoop]
    split
    · exact ⟨rfl, rfl⟩
    · exact ⟨by simp [deleteCalls, (ih _).1], by simp [createCalls, (ih _).2]⟩

theorem deleteEndpointLoop_calls_no_mutation {σ : Type} (client : DNSService σ)
    (f : DomainFilter) (eps : List Endpoint) :
    ∀ s, deleteCalls (deleteEndpointLoop client f eps s).calls = [] ∧
      createCalls (deleteEndpointLoop client f eps s).calls = [] := by
  induction eps with
  | nil => intro s; exact ⟨rfl, rfl⟩
  | cons ep rest ih =>
    intro s
    simp only [deleteEndpointLoop]
    split
    · exact ih s
    · split
      · exact ⟨rfl, rfl⟩
      · rename_i zones _
        have hz := deleteZoneLoop_calls_no_mutation client ep zones
          (client.GetZonesByDomainName ep.DNSName s).2
        exact ⟨by simp [deleteCalls, deleteCalls_append, hz.1, (ih _).1],
          by simp [createCalls, createCalls_append, hz.2, (ih _).2]⟩

theorem createEndpointLoop_calls_no_mutation {σ : Type} (client : DNSService σ)
    (f : DomainFilter) (eps : List Endpoint) :
    ∀ s, deleteCalls (createEndpointLoop client f eps s).calls = [] ∧
      createCalls (createEndpointLoop client f eps s).calls = [] := by
  induction eps with
  | nil => intro s; exact ⟨rfl, rfl⟩
  | cons ep rest ih =>
    intro s
    simp only [createEndpointLoop]
    split
    · exact ih s
    · split
      · exact ⟨rfl, rfl⟩
      · exact ⟨by simp [deleteCalls, (ih _).1], by simp [createCalls, (ih _).2]⟩
      · exact ⟨by simp [deleteCalls, (ih _).1], by simp [createCalls, (ih _).2]⟩

theorem deleteRecords_calls_no_create {σ : Type} (client : DNSService σ)
    (records : List Record) :
    ∀ s, createCalls (deleteRecords client records s).calls = [] := by
  induction records with
  | nil => intro s; rfl
  | cons record rest ih =>
    intro s
    simp only [deleteRecords]
    split
    · rfl
    · simp [createCalls, ih]

theorem createRecords_calls_no_delete {σ : Type} (client : DNSService σ)
    (records : List Record) :
    ∀ s, deleteCalls (createRecords client records s).calls = [] := by
  induction records with
  | nil => intro s; rfl
  | cons record rest ih =>
    intro s
    simp only [createRecords]
    split
    · rfl
    · simp [deleteCalls, ih]

theorem deleteRecords_calls_of_ok {σ : Type} (client : DNSService σ) (records : List Record) :
    ∀ s, (deleteRecords client records s).err = none →
      (deleteRecords client records s).calls =
        records.map fun r => Call.DeleteRecord r.ZoneName r.Identifier := by
  induction records with
  | nil => intro s _; rfl
  | cons record rest ih =>
    intro s h
    simp only [deleteRecords] at h ⊢
    split at h
    · simp at h
    · rename_i hres
      simp only [hres, List.map_cons]
      rw [ih _ h]

theorem createRecords_calls_of_ok {σ : Type} (client : DNSService σ) (records : List Record) :
    ∀ s, (createRecords client records s).err = none →
      (createRecords client records s).calls =
        records.map fun r => Call.CreateRecord r.ZoneName r := by
  induction records with
  | nil => intro s _; rfl
  | cons record rest ih =>
    intro s h
    simp only [createRecords] at h ⊢
    split at h
    · simp at h
    · rename_i hres
      simp only [hres, List.map_cons]
      rw [ih _ h]

theorem deleteRecords_append {σ : Type} (client : DNSService σ) (l₁ l₂ : List Record) :
    ∀ s, (deleteRecords client l₁ s).err = none →
      deleteRecords client (l₁ ++ l₂) s =
        ⟨(deleteRecords client l₂ (deleteRecords client l₁ s).state).state,
          (deleteRecords client l₁ s).calls ++
            (deleteRecords client l₂ (deleteRecords client l₁ s).state).calls,
          (deleteRecords client l₂ (deleteRecords client l₁ s).state).err⟩ := by
  induction l₁ with
  | nil => intro s _; rfl
  | cons record rest ih =>
    intro s h
    simp only [deleteRecords, List.cons_append] at h ⊢
    split at h
    · simp at h
    · rename_i hres
      simp only [hres] at h
      simp only [List.append_eq, ih _ h, List.cons_append]

theorem ApplyChanges_of_delete_error {σ : Type} (p : Provider σ) (changes : Changes) (s : σ)
    (toCreate toDelete : List Endpoint) (err : Error)
    (hsets : GetCreateDeleteSetsFromChanges changes = some (toCreate, toDelete))
    (herr : (deleteRecords p.client
      (deleteEndpointLoop p.client p.domainFilter toDelete s).records
      (deleteEndpointLoop p.client p.domainFilter toDelete s).state).err = some err) :
    p.ApplyChanges changes s =
      some ⟨(deleteRecords p.client
              (deleteEndpointLoop p.client p.domainFilter toDelete s).records
              (deleteEndpointLoop p.client p.domainFilter toDelete s).state).state,
            (deleteEndpointLoop p.client p.domainFilter toDelete s).calls ++
              (deleteRecords p.client
                (deleteEndpointLoop p.client p.domainFilter toDelete s).records
                (deleteEndpointLoop p.client p.domainFilter toDelete s).state).calls,
            some err⟩ := by
  simp only [Provider.ApplyChanges, hsets, herr]

theorem ApplyChanges_of_delete_ok {σ : Type} (p : Provider σ) (changes : Changes) (s : σ)
    (toCreate toDelete : List Endpoint)
    (hsets : GetCreateDeleteSetsFromChanges changes = some (toCreate, toDelete))
    (hok : (deleteRecords p.client
      (deleteEndpointLoop p.client p.domainFilter toDelete s).records
      (deleteEndpointLoop p.client p.domainFilter toDelete s).state).err = none) :
    p.ApplyChanges changes s =
      some ⟨(createRecords p.client
              (createEndpointLoop p.client p.domainFilter toCreate
                (deleteRecords p.client
                  (deleteEndpointLoop p.client p.domainFilter toDelete s).records
                  (deleteEndpointLoop p.client p.domainFilter toDelete s).state).state).records
              (createEndpointLoop p.client p.domainFilter toCreate
                (deleteRecords p.client
                  (deleteEndpointLoop p.client p.domainFilter toDelete s).records
                  (deleteEndpointLoop p.client p.domainFilter toDelete s).state).state).state).state,
            (deleteEndpointLoop p.client p.domainFilter toDelete s).calls ++
              (deleteRecords p.client
                (deleteEndpointLoop p.client p.domainFilter toDelete s).records
                (deleteEndpointLoop p.client p.domainFilter toDelete s).state).calls ++
              (createEndpointLoop p.client p.domainFilter toCreate
                (deleteRecords p.client
                  (deleteEndpointLoop p.client p.domainFilter toDelete s).records
                  (deleteEndpointLoop p.client p.domainFilter toDelete s).state).state).calls ++
              (createRecords p.client
                (createEndpointLoop p.client p.domainFilter toCreate
                  (deleteRecords p.client
                    (deleteEndpointLoop p.client p.domainFilter toDelete s).records
                    (deleteEndpointLoop p.client p.domainFilter toDelete s).state).state).records
                (createEndpointLoop p.client p.domainFilter toCreate
                  (deleteRecords p.client
                    (deleteEndpointLoop p.client p.domainFilter toDelete s).records
                    (deleteEndpointLoop p.client p.domainFilter toDelete s).state).state).state).calls,
            (createRecords p.client
              (createEndpointLoop p.client p.domainFilter toCreate
                (deleteRecords p.client
                  (deleteEndpointLoop p.client p.domainFilter toDelete s).records
                  (deleteEndpointLoop p.client p.domainFilter toDelete s).state).state).records
              (createEndpointLoop p.client p.domainFilter toCreate
                (deleteRecords p.client
                  (deleteEndpointLoop p.client p.domainFilter toDelete s).records
                  (deleteEndpointLoop p.client p.domainFilter toDelete s).state).state).state).err⟩ := by
  simp only [Provider.ApplyChanges, hsets, hok]

/-! ## Claims on failures and on the order of the calls -/

/-- C11. When the records queued for deletion are `done ++ record :: pending`, the `DeleteRecord`
calls for `done` succeed and the one for `record` fails with `err`, `ApplyChanges` returns
exactly `err`; its call log is the lookups of the delete scan, the `DeleteRecord` calls for
`done` and the failed call, and nothing after it: no `DeleteRecord` call for `pending`, no zone
lookup for the create-list, no `CreateRecord` call (so nothing undoes the deletes of `done`). -/
theorem ApplyChanges_delete_failure_returns_error {σ : Type} (p : Provider σ)
    (changes : Changes) (s : σ) (toCreate toDelete : List Endpoint)
    (done pending : List Record) (record : Record) (err : Error)
    (hsets : GetCreateDeleteSetsFromChanges changes = some (toCreate, toDelete))
    (hqueue : (deleteEndpointLoop p.client p.domainFilter toDelete s).records =
      done ++ record :: pending)
    (hdone : (deleteRecords p.client done
      (deleteEndpointLoop p.client p.domainFilter toDelete s).state).err = none)
    (hfail : (p.client.DeleteRecord record.ZoneName record.Identifier
      (deleteRecords p.client done
        (deleteEndpointLoop p.client p.domainFilter toDelete s).state).state).1 = some err) :
    ∃ r, p.ApplyChanges changes s = some r ∧
      r.err = some err ∧
      r.calls = (deleteEndpointLoop p.client p.domainFilter toDelete s).calls ++
        ((done.map fun d => Call.DeleteRecord d.ZoneName d.Identifier) ++
          [Call.DeleteRecord record.ZoneName record.Identifier]) ∧
      deleteCalls r.calls =
        (done.map fun d => (d.ZoneName, d.Identifier)) ++
          [(record.ZoneName, record.Identifier)] ∧
      createCalls r.calls = [] := by
  have hsplit := deleteRecords_append p.client done (record :: pending) _ hdone
  have hrec : deleteRecords p.client (record :: pending)
      (deleteRecords p.client done
        (deleteEndpointLoop p.client p.domainFilter toDelete s).state).state =
      ⟨(p.client.DeleteRecord record.ZoneName record.Identifier
          (deleteRecords p.client done
            (deleteEndpointLoop p.client p.domainFilter toDelete s).state).state).2,
        [Call.DeleteRecord record.ZoneName record.Identifier], some err⟩ := by
    simp only [deleteRecords, hfail]
  rw [hrec, ← hqueue] at hsplit
  have herr : (deleteRecords p.client
      (deleteEndpointLoop p.client p.domainFilter toDelete s).records
      (deleteEndpointLoop p.client p.domainFilter toDelete s).state).err = some err := by
    rw [hsplit]
  have hcalls : (deleteRecords p.client
      (deleteEndpointLoop p.client p.domainFilter toDelete s).records
      (deleteEndpointLoop p.client p.domainFilter toDelete s).state).calls =
      (done.map fun d => Call.DeleteRecord d.ZoneName d.Identifier) ++
        [Call.DeleteRecord record.ZoneName record.Identifier] := by
    rw [hsplit, deleteRecords_calls_of_ok p.client done _ hdone]
  have hscan := deleteEndpointLoop_calls_no_mutation p.client p.domainFilter toDelete s
  refine ⟨_, ApplyChanges_of_delete_error p changes s toCreate toDelete err hsets herr, rfl,
    ?_, ?_, ?_⟩
  · simp only [hcalls]
  · simp only [hcalls, deleteCalls_append, hscan.1, List.nil_append,
      deleteCalls_map_DeleteRecord]
    rfl
  · simp only [hcalls, createCalls_append, hscan.2, List.nil_append,
      createCalls_map_DeleteRecord]
    rfl

theorem ApplyChanges_delete_failure_returns_error_witness :
    ∃ r, Provider.ApplyChanges
        ⟨stubDNSClient [⟨"de"⟩] scenarioZoneRecords noError noError₂
          (fun _ recordID => if recordID = "0" then some "delete failed" else none) noError₂,
          noDomainFilter⟩
        { Create := [aDe ["7.7.7.7"]], UpdateOld := [], UpdateNew := [],
          Delete := [aDe ["1.2.3.4", "9.9.9.9"]] } () = some r ∧
      r.err = some "delete failed" ∧
      r.calls = [Call.GetZonesByDomainName "a.de", Call.GetRecordsByZoneNameAndName "de" "a",
        Call.DeleteRecord "de" "0"] ∧
      deleteCalls r.calls = [("de", "0")] ∧
      createCalls r.calls = [] :=
  ApplyChanges_delete_failure_returns_error
    ⟨stubDNSClient [⟨"de"⟩] scenarioZoneRecords noError noError₂
      (fun _ recordID => if recordID = "0" then some "delete failed" else none) noError₂,
      noDomainFilter⟩
    { Create := [aDe ["7.7.7.7"]], UpdateOld := [], UpdateNew := [],
      Delete := [aDe ["1.2.3.4", "9.9.9.9"]] } ()
    [aDe ["7.7.7.7"]] [aDe ["1.2.3.4", "9.9.9.9"]] []
    [⟨"1", "de", "a", "A", 300, "9.9.9.9"⟩] ⟨"0", "de", "a", "A", 300, "1.2.3.4"⟩
    "delete failed" rfl rfl rfl rfl

theorem updateLoop_isSome (olds : List Endpoint) :
    ∀ (news : List Endpoint) (acc : List Endpoint × List Endpoint),
      olds.length ≤ news.length → ∃ sets, updateLoop olds news acc = some sets := by
  induction olds with
  | nil => intro news acc _; exact ⟨acc, by simp [updateLoop]⟩
  | cons o olds ih =>
    intro news acc hlen
    cases news with
    | nil => simp at hlen
    | cons n news =>
      have hlen' : olds.length ≤ news.length := by simpa using hlen
      obtain ⟨toCreate, toDelete⟩ := acc
      simp only [updateLoop]
      split
      · exact ih news _ hlen'
      · exact ih news _ hlen'

theorem not_mem_of_deleteCalls_nil (l : List Call) (h : deleteCalls l = [])
    (zoneName recordID : String) : Call.DeleteRecord zoneName recordID ∉ l := by
  induction l with
  | nil => simp
  | cons c rest ih =>
    cases c <;> simp_all [deleteCalls]

theorem not_mem_of_createCalls_nil (l : List Call) (h : createCalls l = [])
    (zoneName : String) (record : Record) : Call.CreateRecord zoneName record ∉ l := by
  induction l with
  | nil => simp
  | cons c rest ih =>
    cases c <;> simp_all [createCalls]

theorem delete_index_lt_create_index (before after : List Call)
    (hb : createCalls before = []) (ha : deleteCalls after = [])
    (i j : Nat) (zoneName recordID zoneName' : String) (record : Record)
    (hi : (before ++ after)[i]? = some (Call.DeleteRecord zoneName recordID))
    (hj : (before ++ after)[j]? = some (Call.CreateRecord zoneName' record)) : i < j := by
  have hi' : i < before.length := by
    by_contra hge
    rw [List.getElem?_append_right (Nat.le_of_not_lt hge)] at hi
    exact not_mem_of_deleteCalls_nil after ha _ _ (List.getElem?_mem hi)
  have hj' : before.length ≤ j := by
    by_contra hlt
    rw [List.getElem?_append_left (Nat.lt_of_not_le hlt)] at hj
    exact not_mem_of_createCalls_nil before hb _ _ (List.getElem?_mem hj)
  omega

/-- C15. Every run of `ApplyChanges` that does not panic (`UpdateNew` at least as long as
`UpdateOld`) returns with a call log that splits into a part without `CreateRecord` calls
followed by a part without `DeleteRecord` calls: every `DeleteRecord` call stands at a smaller
index than every `CreateRecord` call. -/
theorem ApplyChanges_deletes_precede_creates {σ : Type} (p : Provider σ) (changes : Changes)
    (s : σ) (hlen : changes.UpdateOld.length ≤ changes.UpdateNew.length) :
    ∃ r, p.ApplyChanges changes s = some r ∧
      (∃ before after, r.calls = before ++ after ∧ createCalls before = [] ∧
        deleteCalls after = []) ∧
      ∀ (i j : Nat) (zoneName recordID zoneName' : String) (record : Record),
        r.calls[i]? = some (Call.DeleteRecord zoneName recordID) →
        r.calls[j]? = some (Call.CreateRecord zoneName' record) → i < j := by
  obtain ⟨⟨toCreate, toDelete⟩, hsets⟩ :=
    updateLoop_isSome changes.UpdateOld changes.UpdateNew (changes.Create, changes.Delete) hlen
  have hscan := deleteEndpointLoop_calls_no_mutation p.client p.domainFilter toDelete s
  have hdel := deleteRecords_calls_no_create p.client
    (deleteEndpointLoop p.client p.domainFilter toDelete s).records
    (deleteEndpointLoop p.client p.domainFilter toDelete s).state
  have hbefore : createCalls ((deleteEndpointLoop p.client p.domainFilter toDelete s).calls ++
      (deleteRecords p.client (deleteEndpointLoop p.client p.domainFilter toDelete s).records
        (deleteEndpointLoop p.client p.domainFilter toDelete s).state).calls) = [] := by
    rw [createCalls_append, hscan.2, hdel]
    rfl
  cases herr : (deleteRecords p.client
      (deleteEndpointLoop p.client p.domainFilter toDelete s).records
      (deleteEndpointLoop p.client p.domainFilter toDelete s).state).err with
  | some err =>
    refine ⟨_, ApplyChanges_of_delete_error p changes s toCreate toDelete err hsets herr,
      ⟨_, [], (List.append_nil _).symm, hbefore, rfl⟩, ?_⟩
    intro i j zoneName recordID zoneName' record hi hj
    exact absurd (List.getElem?_mem hj) (not_mem_of_createCalls_nil _ hbefore _ _)
  | none =>
    have hres := createEndpointLoop_calls_no_mutation p.client p.domainFilter toCreate
      (deleteRecords p.client (deleteEndpointLoop p.client p.domainFilter toDelete s).records
        (deleteEndpointLoop p.client p.domainFilter toDelete s).state).state
    have hcre := createRecords_calls_no_delete p.client
      (createEndpointLoop p.client p.domainFilter toCreate
        (deleteRecords p.client (deleteEndpointLoop p.client p.domainFilter toDelete s).records
          (deleteEndpointLoop p.client p.domainFilter toDelete s).state).state).records
      (createEndpointLoop p.client p.domainFilter toCreate
        (deleteRecords p.client (deleteEndpointLoop p.client p.domainFilter toDelete s).records
          (deleteEndpointLoop p.client p.domainFilter toDelete s).state).state).state
    have hafter : deleteCalls ((createEndpointLoop p.client p.domainFilter toCreate
        (deleteRecords p.client (deleteEndpointLoop p.client p.domainFilter toDelete s).records
          (deleteEndpointLoop p.client p.domainFilter toDelete s).state).state).calls ++
        (createRecords p.client
          (createEndpointLoop p.client p.domainFilter toCreate
            (deleteRecords p.client
              (deleteEndpointLoop p.client p.domainFilter toDelete s).records
              (deleteEndpointLoop p.client p.domainFilter toDelete s).state).state).records
          (createEndpointLoop p.client p.domainFilter toCreate
            (deleteRecords p.client
              (deleteEndpointLoop p.client p.domainFilter toDelete s).records
              (deleteEndpointLoop p.client p.domainFilter toDelete s).state).state).state).calls)
        = [] := by
      rw [deleteCalls_append, hres.1, hcre]
      rfl
    refine ⟨_, ApplyChanges_of_delete_ok p changes s toCreate toDelete hsets herr,
      ⟨_, _, List.append_assoc _ _ _, hbefore, hafter⟩, ?_⟩
    intro i j zoneName recordID zoneName' record hi hj
    simp only [List.append_assoc] at hi hj
    rw [← List.append_assoc] at hi hj
    exact delete_index_lt_create_index _ _ hbefore hafter i j _ _ _ _ hi hj

theorem ApplyChanges_deletes_precede_creates_witness :
    ∃ r, (scenarioProvider noDomainFilter).ApplyChanges
        { Create := [], UpdateOld := [aDe ["1.2.3.4"]], UpdateNew := [aDe ["5.6.7.8"]],
          Delete := [] } () = some r ∧
      (∃ before after, r.calls = before ++ after ∧ createCalls before = [] ∧
        deleteCalls after = []) ∧
      ∀ (i j : Nat) (zoneName recordID zoneName' : String) (record : Record),
        r.calls[i]? = some (Call.DeleteRecord zoneName recordID) →
        r.calls[j]? = some (Call.CreateRecord zoneName' record) → i < j :=
  ApplyChanges_deletes_precede_creates (scenarioProvider noDomainFilter)
    { Create := [], UpdateOld := [aDe ["1.2.3.4"]], UpdateNew := [aDe ["5.6.7.8"]],
      Delete := [] } () (Nat.le_refl 1)

theorem ApplyChanges_update_single_record_example :
    (scenarioProvider noDomainFilter).ApplyChanges
        { Create := [], UpdateOld := [aDe ["1.2.3.4"]], UpdateNew := [aDe ["5.6.7.8"]],
          Delete := [] } () =
      some ⟨(), [Call.GetZonesByDomainName "a.de", Call.GetRecordsByZoneNameAndName "de" "a",
        Call.DeleteRecord "de" "0", Call.GetZonesByDomainName "a.de",
        Call.CreateRecord "de" ⟨"", "de", "a", "A", 300, "5.6.7.8"⟩], none⟩ := by
  rfl

/-! ## Lemmas on loops that are left early -/

theorem ApplyChanges_eq_phases {σ : Type} (p : Provider σ) (changes : Changes) (s : σ)
    (toCreate toDelete : List Endpoint)
    (hsets : GetCreateDeleteSetsFromChanges changes = some (toCreate, toDelete))
    (hok : (deletePhase p toDelete s).err = none) :
    p.ApplyChanges changes s =
      some ⟨(createPhase p toCreate (deletePhase p toDelete s).state).state,
        (deletePhase p toDelete s).calls ++
          (createPhase p toCreate (deletePhase p toDelete s).state).calls,
        (createPhase p toCreate (deletePhase p toDelete s).state).err⟩ := by
  have hok' : (deleteRecords p.client
      (deleteEndpointLoop p.client p.domainFilter toDelete s).records
      (deleteEndpointLoop p.client p.domainFilter toDelete s).state).err = none := hok
  rw [ApplyChanges_of_delete_ok p changes s toCreate toDelete hsets hok']
  simp only [deletePhase, createPhase, List.append_assoc]

theorem deleteZoneLoop_append {σ : Type} (client : DNSService σ) (ep : Endpoint)
    (zs₁ zs₂ : List Zone) :
    ∀ s, deleteZoneLoopBreaks client ep zs₁ s = false →
      deleteZoneLoop client ep (zs₁ ++ zs₂) s =
        ⟨(deleteZoneLoop client ep zs₂ (deleteZoneLoop client ep zs₁ s).state).state,
          (deleteZoneLoop client ep zs₁ s).calls ++
            (deleteZoneLoop client ep zs₂ (deleteZoneLoop client ep zs₁ s).state).calls,
          (deleteZoneLoop client ep zs₁ s).records ++
            (deleteZoneLoop client ep zs₂ (deleteZoneLoop client ep zs₁ s).state).records⟩ := by
  induction zs₁ with
  | nil => intro s _; rfl
  | cons zone rest ih =>
    intro s h
    simp only [deleteZoneLoopBreaks] at h
    simp only [List.cons_append, deleteZoneLoop]
    split at h
    · simp at h
    · rename_i records hres
      simp only [hres, List.append_eq, ih _ h, List.cons_append, List.append_assoc]

theorem deleteEndpointLoop_append {σ : Type} (client : DNSService σ) (f : DomainFilter)
    (pre post : List Endpoint) :
    ∀ s, deleteEndpointLoopBreaks client f pre s = false →
      deleteEndpointLoop client f (pre ++ post) s =
        ⟨(deleteEndpointLoop client f post (deleteEndpointLoop client f pre s).state).state,
          (deleteEndpointLoop client f pre s).calls ++
            (deleteEndpointLoop client f post (deleteEndpointLoop client f pre s).state).calls,
          (deleteEndpointLoop client f pre s).records ++
            (deleteEndpointLoop client f post
              (deleteEndpointLoop client f pre s).state).records⟩ := by
  induction pre with
  | nil => intro s _; rfl
  | cons ep rest ih =>
    intro s h
    simp only [deleteEndpointLoopBreaks] at h
    simp only [List.cons_append, deleteEndpointLoop]
    split
    · rename_i hskip
      simp only [hskip, if_true] at h
      simpa only [List.append_eq] using ih s h
    · rename_i hskip
      simp only [hskip, Bool.false_eq_true, if_false] at h
      split at h
      · simp at h
      · rename_i zones hres
        simp only [hres, List.append_eq, ih _ h, List.cons_append, List.append_assoc]

theorem createEndpointLoop_append {σ : Type} (client : DNSService σ) (f : DomainFilter)
    (pre post : List Endpoint) :
    ∀ s, createEndpointLoopBreaks client f pre s = false →
      createEndpointLoop client f (pre ++ post) s =
        ⟨(createEndpointLoop client f post (createEndpointLoop client f pre s).state).state,
          (createEndpointLoop client f pre s).calls ++
            (createEndpointLoop client f post (createEndpointLoop client f pre s).state).calls,
          (createEndpointLoop client f pre s).records ++
            (createEndpointLoop client f post
              (createEndpointLoop client f pre s).state).records⟩ := by
  induction pre with
  | nil => intro s _; rfl
  | cons ep rest ih =>
    intro s h
    simp only [createEndpointLoopBreaks] at h
    simp only [List.cons_append, createEndpointLoop]
    split
    · rename_i hskip
      simp only [hskip, if_true] at h
      simpa only [List.append_eq] using ih s h
    · rename_i hskip
      simp only [hskip, Bool.false_eq_true, if_false] at h
      split at h
      · simp at h
      · rename_i zones hres
        cases zones with
        | nil => simp only [hres, List.append_eq, ih _ h, List.cons_append]
        | cons zone0 more => simp only [hres, List.append_eq, ih _ h, List.cons_append, List.append_assoc]

/-- C13 (as amended). When the delete phase returned no error, the create-list is
`pre ++ e :: post`, the lookups for `pre` did not fail and the zone lookup for the passing
endpoint `e` fails, `ApplyChanges` looks up no endpoint of `post`, still passes the records
built for `pre` to `CreateRecord`, in order, and returns the error of those `CreateRecord` calls
only: when they succeed it returns no error, so the lookup failure is not propagated. -/
theorem ApplyChanges_create_lookup_failure_keeps_resolved {σ : Type} (p : Provider σ)
    (changes : Changes) (s : σ) (toDelete pre post : List Endpoint) (e : Endpoint) (err : Error)
    (hsets : GetCreateDeleteSetsFromChanges changes = some (pre ++ e :: post, toDelete))
    (hdel : (deletePhase p toDelete s).err = none)
    (hpre : createEndpointLoopBreaks p.client p.domainFilter pre
      (deletePhase p toDelete s).state = false)
    (hpass : p.domainFilter.passes e.DNSName)
    (hz : (p.client.GetZonesByDomainName e.DNSName
      (createEndpointLoop p.client p.domainFilter pre
        (deletePhase p toDelete s).state).state).1 = .error err) :
    ∃ r, p.ApplyChanges changes s = some r ∧
      r.calls = (deletePhase p toDelete s).calls ++
        ((createEndpointLoop p.client p.domainFilter pre (deletePhase p toDelete s).state).calls
          ++ [Call.GetZonesByDomainName e.DNSName]) ++
        (createRecords p.client
          (createEndpointLoop p.client p.domainFilter pre
            (deletePhase p toDelete s).state).records
          (p.client.GetZonesByDomainName e.DNSName
            (createEndpointLoop p.client p.domainFilter pre
              (deletePhase p toDelete s).state).state).2).calls ∧
      r.err = (createRecords p.client
          (createEndpointLoop p.client p.domainFilter pre
            (deletePhase p toDelete s).state).records
          (p.client.GetZonesByDomainName e.DNSName
            (createEndpointLoop p.client p.domainFilter pre
              (deletePhase p toDelete s).state).state).2).err ∧
      ((∀ zoneName record s', (p.client.CreateRecord zoneName record s').1 = none) →
        r.err = none ∧
        createCalls r.calls =
          (createEndpointLoop p.client p.domainFilter pre
            (deletePhase p toDelete s).state).records.map fun built =>
              (built.ZoneName, built)) := by
  have hskip := (DomainFilter.skips_eq_false_iff _ _).2 hpass
  have hloop := createEndpointLoop_append p.client p.domainFilter pre (e :: post) _ hpre
  have hhead : createEndpointLoop p.client p.domainFilter (e :: post)
      (createEndpointLoop p.client p.domainFilter pre (deletePhase p toDelete s).state).state =
      ⟨(p.client.GetZonesByDomainName e.DNSName
          (createEndpointLoop p.client p.domainFilter pre
            (deletePhase p toDelete s).state).state).2,
        [Call.GetZonesByDomainName e.DNSName], []⟩ := by
    simp only [createEndpointLoop, hskip, hz, Bool.false_eq_true, if_false]
  rw [hhead] at hloop
  have hrun := ApplyChanges_eq_phases p changes s _ toDelete hsets hdel
  refine ⟨_, hrun, ?_, ?_, ?_⟩
  · simp only [createPhase, hloop, List.append_nil, List.append_assoc]
  · simp only [createPhase, hloop, List.append_nil]
  · intro hcreate
    have hcr := createRecords_of_succeed p.client hcreate
      (createEndpointLoop p.client p.domainFilter pre (deletePhase p toDelete s).state).records
      (p.client.GetZonesByDomainName e.DNSName
        (createEndpointLoop p.client p.domainFilter pre
          (deletePhase p toDelete s).state).state).2
    have hd1 := deleteEndpointLoop_calls_no_mutation p.client p.domainFilter toDelete s
    have hd2 := deleteRecords_calls_no_create p.client
      (deleteEndpointLoop p.client p.domainFilter toDelete s).records
      (deleteEndpointLoop p.client p.domainFilter toDelete s).state
    have hc1 := createEndpointLoop_calls_no_mutation p.client p.domainFilter pre
      (deletePhase p toDelete s).state
    refine ⟨?_, ?_⟩
    · simp only [createPhase, hloop, List.append_nil, hcr.2]
    · simp only [createPhase, hloop, List.append_nil, hcr.1, createCalls_append, hc1.2,
        createCalls_map_CreateRecord, List.nil_append]
      have : createCalls (deletePhase p toDelete s).calls = [] := by
        simp only [deletePhase, createCalls_append, hd1.2, hd2, List.append_nil]
      rw [this]
      rfl

theorem ApplyChanges_create_lookup_failure_keeps_resolved_witness :
    ∃ r, Provider.ApplyChanges
        ⟨stubDNSClient [⟨"de"⟩, ⟨"com"⟩] twoZoneRecords
          (fun domainName => if domainName = "a.com" then some "lookup failed" else none)
          noError₂ noError₂ noError₂, noDomainFilter⟩
        { Create := [aDe ["1.2.3.4"], aCom, bCom], UpdateOld := [], UpdateNew := [],
          Delete := [] } () = some r ∧
      r.calls = [Call.GetZonesByDomainName "a.de", Call.GetZonesByDomainName "a.com",
        Call.CreateRecord "de" ⟨"", "de", "a", "A", 300, "1.2.3.4"⟩] ∧
      r.err = none ∧
      ((∀ zoneName record s', ((stubDNSClient [⟨"de"⟩, ⟨"com"⟩] twoZoneRecords
          (fun domainName => if domainName = "a.com" then some "lookup failed" else none)
          noError₂ noError₂ noError₂).CreateRecord zoneName record s').1 = none) →
        r.err = none ∧
        createCalls r.calls = [("de", ⟨"", "de", "a", "A", 300, "1.2.3.4"⟩)]) :=
  ApplyChanges_create_lookup_failure_keeps_resolved
    ⟨stubDNSClient [⟨"de"⟩, ⟨"com"⟩] twoZoneRecords
      (fun domainName => if domainName = "a.com" then some "lookup failed" else none)
      noError₂ noError₂ noError₂, noDomainFilter⟩
    { Create := [aDe ["1.2.3.4"], aCom, bCom], UpdateOld := [], UpdateNew := [],
      Delete := [] } () [] [aDe ["1.2.3.4"]] [bCom] aCom "lookup failed"
    rfl rfl rfl (Or.inl rfl) rfl

/-- C13 (the claim as stated fails). The zone lookup for `a.com` fails while the create-list
`[a.de, a.com, b.com]` is processed; `ApplyChanges` still creates the record of `a.de`, which was
resolved before the failure, and returns no error. -/
theorem ApplyChanges_create_lookup_failure_counterexample :
    ((stubDNSClient [⟨"de"⟩, ⟨"com"⟩] twoZoneRecords
        (fun domainName => if domainName = "a.com" then some "lookup failed" else none)
        noError₂ noError₂ noError₂).GetZonesByDomainName "a.com" ()).1 =
      .error "lookup failed" ∧
    ∃ r, Provider.ApplyChanges
        ⟨stubDNSClient [⟨"de"⟩, ⟨"com"⟩] twoZoneRecords
          (fun domainName => if domainName = "a.com" then some "lookup failed" else none)
          noError₂ noError₂ noError₂, noDomainFilter⟩
        { Create := [aDe ["1.2.3.4"], aCom, bCom], UpdateOld := [], UpdateNew := [],
          Delete := [] } () = some r ∧
      r.calls = [Call.GetZonesByDomainName "a.de", Call.GetZonesByDomainName "a.com",
        Call.CreateRecord "de" ⟨"", "de", "a", "A", 300, "1.2.3.4"⟩] ∧
      ¬ (createCalls r.calls = [] ∧ r.err ≠ none) :=
  ⟨rfl, _, rfl, rfl, fun h => h.2 rfl⟩

/-- C12 (as amended). Let the delete-list be `pre ++ e :: post`, the scan of `pre` not left
early, and `e` pass the domain filter. If the zone lookup for `e` fails, the scan ends there:
no endpoint of `post` is looked up or queued and the records queued for `pre` are kept. If a
record lookup for a candidate zone `zone` of `e` fails, after the zones `zs₁` before it were
scanned without failure, no later candidate zone of `e` is looked up or queued, the records
queued for `pre` and `zs₁` are kept, and the scan goes on with the endpoints of `post`. In every
case, when the `DeleteRecord` calls succeed, every queued record is passed to `DeleteRecord`, in
order, and the create-list is processed next. -/
theorem ApplyChanges_delete_lookup_failure {σ : Type} (p : Provider σ) (changes : Changes)
    (s : σ) (toCreate pre post : List Endpoint) (e : Endpoint)
    (hsets : GetCreateDeleteSetsFromChanges changes = some (toCreate, pre ++ e :: post))
    (hpre : deleteEndpointLoopBreaks p.client p.domainFilter pre s = false)
    (hpass : p.domainFilter.passes e.DNSName) :
    (∀ err, (p.client.GetZonesByDomainName e.DNSName
          (deleteEndpointLoop p.client p.domainFilter pre s).state).1 = .error err →
      deleteEndpointLoop p.client p.domainFilter (pre ++ e :: post) s =
        ⟨(p.client.GetZonesByDomainName e.DNSName
            (deleteEndpointLoop p.client p.domainFilter pre s).state).2,
          (deleteEndpointLoop p.client p.domainFilter pre s).calls ++
            [Call.GetZonesByDomainName e.DNSName],
          (deleteEndpointLoop p.client p.domainFilter pre s).records⟩) ∧
    (∀ (zs₁ : List Zone) (zone : Zone) (zs₂ : List Zone) (err : Error),
      (p.client.GetZonesByDomainName e.DNSName
          (deleteEndpointLoop p.client p.domainFilter pre s).state).1 =
        .ok (zs₁ ++ zone :: zs₂) →
      deleteZoneLoopBreaks p.client e zs₁
        (p.client.GetZonesByDomainName e.DNSName
          (deleteEndpointLoop p.client p.domainFilter pre s).state).2 = false →
      (p.client.GetRecordsByZoneNameAndName zone.Name
          (TrimSuffix e.DNSName ("." ++ zone.Name))
          (deleteZoneLoop p.client e zs₁
            (p.client.GetZonesByDomainName e.DNSName
              (deleteEndpointLoop p.client p.domainFilter pre s).state).2).state).1 =
        .error err →
      deleteEndpointLoop p.client p.domainFilter (pre ++ e :: post) s =
        ⟨(deleteEndpointLoop p.client p.domainFilter post
            (p.client.GetRecordsByZoneNameAndName zone.Name
              (TrimSuffix e.DNSName ("." ++ zone.Name))
              (deleteZoneLoop p.client e zs₁
                (p.client.GetZonesByDomainName e.DNSName
                  (deleteEndpointLoop p.client p.domainFilter pre s).state).2).state).2).state,
          (deleteEndpointLoop p.client p.domainFilter pre s).calls ++
            (Call.GetZonesByDomainName e.DNSName ::
              ((deleteZoneLoop p.client e zs₁
                  (p.client.GetZonesByDomainName e.DNSName
                    (deleteEndpointLoop p.client p.domainFilter pre s).state).2).calls ++
                [Call.GetRecordsByZoneNameAndName zone.Name
                  (TrimSuffix e.DNSName ("." ++ zone.Name))])) ++
            (deleteEndpointLoop p.client p.domainFilter post
              (p.client.GetRecordsByZoneNameAndName zone.Name
                (TrimSuffix e.DNSName ("." ++ zone.Name))
                (deleteZoneLoop p.client e zs₁
                  (p.client.GetZonesByDomainName e.DNSName
                    (deleteEndpointLoop p.client p.domainFilter pre s).state).2).state).2).calls,
          (deleteEndpointLoop p.client p.domainFilter pre s).records ++
            (deleteZoneLoop p.client e zs₁
              (p.client.GetZonesByDomainName e.DNSName
                (deleteEndpointLoop p.client p.domainFilter pre s).state).2).records ++
            (deleteEndpointLoop p.client p.domainFilter post
              (p.client.GetRecordsByZoneNameAndName zone.Name
                (TrimSuffix e.DNSName ("." ++ zone.Name))
                (deleteZoneLoop p.client e zs₁
                  (p.client.GetZonesByDomainName e.DNSName
                    (deleteEndpointLoop p.client p.domainFilter pre s).state).2).state).2).records⟩)
    ∧
    ((∀ zoneName recordID s', (p.client.DeleteRecord zoneName recordID s').1 = none) →
      ∃ r, p.ApplyChanges changes s = some r ∧
        deleteCalls r.calls =
          (deleteEndpointLoop p.client p.domainFilter (pre ++ e :: post) s).records.map
            (fun queued => (queued.ZoneName, queued.Identifier)) ∧
        r.calls = (deleteEndpointLoop p.client p.domainFilter (pre ++ e :: post) s).calls ++
          ((deleteEndpointLoop p.client p.domainFilter (pre ++ e :: post) s).records.map
            fun queued => Call.DeleteRecord queued.ZoneName queued.Identifier) ++
          (createPhase p toCreate (deletePhase p (pre ++ e :: post) s).state).calls ∧
        r.err = (createPhase p toCreate (deletePhase p (pre ++ e :: post) s).state).err) := by
  have hskip := (DomainFilter.skips_eq_false_iff _ _).2 hpass
  have hloop := deleteEndpointLoop_append p.client p.domainFilter pre (e :: post) s hpre
  refine ⟨?_, ?_, ?_⟩
  · intro err hz
    have hhead : deleteEndpointLoop p.client p.domainFilter (e :: post)
        (deleteEndpointLoop p.client p.domainFilter pre s).state =
        ⟨(p.client.GetZonesByDomainName e.DNSName
            (deleteEndpointLoop p.client p.domainFilter pre s).state).2,
          [Call.GetZonesByDomainName e.DNSName], []⟩ := by
      simp only [deleteEndpointLoop, hskip, hz, Bool.false_eq_true, if_false]
    rw [hloop, hhead]
    simp only [List.append_nil]
  · intro zs₁ zone zs₂ err hz hzs hr
    have hzones := deleteZoneLoop_append p.client e zs₁ (zone :: zs₂) _ hzs
    have hzone : deleteZoneLoop p.client e (zone :: zs₂)
        (deleteZoneLoop p.client e zs₁
          (p.client.GetZonesByDomainName e.DNSName
            (deleteEndpointLoop p.client p.domainFilter pre s).state).2).state =
        ⟨(p.client.GetRecordsByZoneNameAndName zone.Name
            (TrimSuffix e.DNSName ("." ++ zone.Name))
            (deleteZoneLoop p.client e zs₁
              (p.client.GetZonesByDomainName e.DNSName
                (deleteEndpointLoop p.client p.domainFilter pre s).state).2).state).2,
          [Call.GetRecordsByZoneNameAndName zone.Name
            (TrimSuffix e.DNSName ("." ++ zone.Name))], []⟩ := by
      simp only [deleteZoneLoop, hr]
    rw [hzone] at hzones
    have hhead : deleteEndpointLoop p.client p.domainFilter (e :: post)
        (deleteEndpointLoop p.client p.domainFilter pre s).state =
        ⟨(deleteEndpointLoop p.client p.domainFilter post
            (deleteZoneLoop p.client e (zs₁ ++ zone :: zs₂)
              (p.client.GetZonesByDomainName e.DNSName
                (deleteEndpointLoop p.client p.domainFilter pre s).state).2).state).state,
          Call.GetZonesByDomainName e.DNSName ::
            ((deleteZoneLoop p.client e (zs₁ ++ zone :: zs₂)
              (p.client.GetZonesByDomainName e.DNSName
                (deleteEndpointLoop p.client p.domainFilter pre s).state).2).calls ++
            (deleteEndpointLoop p.client p.domainFilter post
              (deleteZoneLoop p.client e (zs₁ ++ zone :: zs₂)
                (p.client.GetZonesByDomainName e.DNSName
                  (deleteEndpointLoop p.client p.domainFilter pre s).state).2).state).calls),
          (deleteZoneLoop p.client e (zs₁ ++ zone :: zs₂)
              (p.client.GetZonesByDomainName e.DNSName
                (deleteEndpointLoop p.client p.domainFilter pre s).state).2).records ++
            (deleteEndpointLoop p.client p.domainFilter post
              (deleteZoneLoop p.client e (zs₁ ++ zone :: zs₂)
                (p.client.GetZonesByDomainName e.DNSName
                  (deleteEndpointLoop p.client p.domainFilter pre s).state).2).state).records⟩ := by
      simp only [deleteEndpointLoop, hskip, hz, Bool.false_eq_true, if_false]
    rw [hloop, hhead, hzones]
    simp only [List.append_nil, List.append_assoc, List.cons_append]
  · intro hdelete
    have hdel := deleteRecords_of_succeed p.client hdelete
      (deleteEndpointLoop p.client p.domainFilter (pre ++ e :: post) s).records
      (deleteEndpointLoop p.client p.domainFilter (pre ++ e :: post) s).state
    have hscan := deleteEndpointLoop_calls_no_mutation p.client p.domainFilter
      (pre ++ e :: post) s
    have hcre := createEndpointLoop_calls_no_mutation p.client p.domainFilter toCreate
      (deletePhase p (pre ++ e :: post) s).state
    have hcr := createRecords_calls_no_delete p.client
      (createEndpointLoop p.client p.domainFilter toCreate
        (deletePhase p (pre ++ e :: post) s).state).records
      (createEndpointLoop p.client p.domainFilter toCreate
        (deletePhase p (pre ++ e :: post) s).state).state
    have hok : (deletePhase p (pre ++ e :: post) s).err = none := hdel.2
    have hcalls : (deletePhase p (pre ++ e :: post) s).calls =
        (deleteEndpointLoop p.client p.domainFilter (pre ++ e :: post) s).calls ++
          (deleteEndpointLoop p.client p.domainFilter (pre ++ e :: post) s).records.map
            fun queued => Call.DeleteRecord queued.ZoneName queued.Identifier := by
      simp only [deletePhase, hdel.1]
    refine ⟨_, ApplyChanges_eq_phases p changes s toCreate _ hsets hok, ?_, ?_, rfl⟩
    · simp only [hcalls, deleteCalls_append, hscan.1, deleteCalls_map_DeleteRecord,
        List.nil_append]
      have : deleteCalls (createPhase p toCreate (deletePhase p (pre ++ e :: post) s).state).calls
          = [] := by
        simp only [createPhase, deleteCalls_append, hcre.1, hcr, List.append_nil]
      rw [this, List.append_nil]
    · simp only [hcalls]

theorem ApplyChanges_delete_lookup_failure_witness :
    deleteEndpointLoop zoneLookupFailsProvider.client noDomainFilter
        [bCom, aDe ["1.2.3.4"], bCom] () =
      ⟨(), [Call.GetZonesByDomainName "b.com", Call.GetRecordsByZoneNameAndName "com" "b",
        Call.GetZonesByDomainName "a.de"], [bComRecord]⟩ ∧
    deleteEndpointLoop recordLookupFailsProvider.client noDomainFilter
        [aDe ["1.2.3.4"], bCom] () =
      ⟨(), [Call.GetZonesByDomainName "a.de", Call.GetRecordsByZoneNameAndName "a.de" "a.de",
        Call.GetZonesByDomainName "b.com", Call.GetRecordsByZoneNameAndName "com" "b"],
        [bComRecord]⟩ ∧
    ∃ r, recordLookupFailsProvider.ApplyChanges
        { Create := [aDe ["7.7.7.7"]], UpdateOld := [], UpdateNew := [],
          Delete := [aDe ["1.2.3.4"], bCom] } () = some r ∧
      deleteCalls r.calls = [("com", "7")] ∧
      r.calls = [Call.GetZonesByDomainName "a.de",
        Call.GetRecordsByZoneNameAndName "a.de" "a.de", Call.GetZonesByDomainName "b.com",
        Call.GetRecordsByZoneNameAndName "com" "b", Call.DeleteRecord "com" "7",
        Call.GetZonesByDomainName "a.de",
        Call.CreateRecord "a.de" ⟨"", "a.de", "a.de", "A", 300, "7.7.7.7"⟩] ∧
      r.err = none :=
  ⟨(ApplyChanges_delete_lookup_failure zoneLookupFailsProvider
      { Create := [], UpdateOld := [], UpdateNew := [],
        Delete := [bCom, aDe ["1.2.3.4"], bCom] } () [] [bCom] [bCom] (aDe ["1.2.3.4"])
      rfl rfl (Or.inl rfl)).1 "zone lookup failed" rfl,
    (ApplyChanges_delete_lookup_failure recordLookupFailsProvider
      { Create := [aDe ["7.7.7.7"]], UpdateOld := [], UpdateNew := [],
        Delete := [aDe ["1.2.3.4"], bCom] } () [aDe ["7.7.7.7"]] [] [bCom] (aDe ["1.2.3.4"])
      rfl rfl (Or.inl rfl)).2.1 [] ⟨"a.de"⟩ [⟨"de"⟩] "record lookup failed" rfl rfl rfl,
    (ApplyChanges_delete_lookup_failure recordLookupFailsProvider
      { Create := [aDe ["7.7.7.7"]], UpdateOld := [], UpdateNew := [],
        Delete := [aDe ["1.2.3.4"], bCom] } () [aDe ["7.7.7.7"]] [] [bCom] (aDe ["1.2.3.4"])
      rfl rfl (Or.inl rfl)).2.2 (fun _ _ _ => rfl)⟩

/-- C12 (the claim as stated fails). The record lookup for the first candidate zone of the
delete-list endpoint `a.de` fails; the later delete-list endpoint `b.com` is still looked up,
its record is queued and deleted. -/
theorem ApplyChanges_delete_record_lookup_failure_counterexample :
    (recordLookupFailsProvider.client.GetRecordsByZoneNameAndName "a.de" "a.de" ()).1 =
      .error "record lookup failed" ∧
    ∃ r, recordLookupFailsProvider.ApplyChanges
        { Create := [], UpdateOld := [], UpdateNew := [],
          Delete := [aDe ["1.2.3.4"], bCom] } () = some r ∧
      r.calls = [Call.GetZonesByDomainName "a.de",
        Call.GetRecordsByZoneNameAndName "a.de" "a.de", Call.GetZonesByDomainName "b.com",
        Call.GetRecordsByZoneNameAndName "com" "b", Call.DeleteRecord "com" "7"] ∧
      Call.GetZonesByDomainName "b.com" ∈ r.calls ∧
      ("com", "7") ∈ deleteCalls r.calls :=
  ⟨rfl, _, rfl, rfl, by decide, by decide⟩

/-! ## Claims on repeated deletions -/

theorem deleteEndpointLoop_records_of_pure {σ : Type} (client : DNSService σ)
    (f : DomainFilter) (zonesOf : String → List Zone) (recsOf : String → String → List Record)
    (hz : ∀ domainName s, (client.GetZonesByDomainName domainName s).1 = .ok (zonesOf domainName))
    (hr : ∀ zoneName name s,
      (client.GetRecordsByZoneNameAndName zoneName name s).1 = .ok (recsOf zoneName name))
    (eps : List Endpoint) :
    ∀ s, (deleteEndpointLoop client f eps s).records =
      (eps.filter fun ep => !f.skips ep.DNSName).flatMap fun ep =>
        (zonesOf ep.DNSName).flatMap fun zone =>
          matchingRecords ep (recsOf zone.Name (TrimSuffix ep.DNSName ("." ++ zone.Name))) := by
  induction eps with
  | nil => intro s; rfl
  | cons ep rest ih =>
    intro s
    by_cases hskip : f.skips ep.DNSName = true
    · simp only [deleteEndpointLoop, hskip, if_true, ih, List.filter_cons, Bool.not_true,
        Bool.false_eq_true, if_false]
    · have hskip' : f.skips ep.DNSName = false := by simpa using hskip
      have hzl := deleteZoneLoop_of_succeed client ep
        (fun zone => recsOf zone.Name (TrimSuffix ep.DNSName ("." ++ zone.Name)))
        (zonesOf ep.DNSName) (fun zone _ s' => hr _ _ s') (client.GetZonesByDomainName ep.DNSName s).2
      simp only [deleteEndpointLoop, hskip', Bool.false_eq_true, if_false, hz, ih, hzl.2,
        List.filter_cons, Bool.not_false, if_true, List.flatMap_cons]

theorem scan_records_eq_flatMap_queuedAt {σ : Type} (client : DNSService σ)
    (f : DomainFilter) (zonesOf : String → List Zone) (recsOf : String → String → List Record)
    (hz : ∀ domainName s, (client.GetZonesByDomainName domainName s).1 = .ok (zonesOf domainName))
    (hr : ∀ zoneName name s,
      (client.GetRecordsByZoneNameAndName zoneName name s).1 = .ok (recsOf zoneName name))
    (eps : List Endpoint) (s : σ) :
    (deleteEndpointLoop client f eps s).records =
      (scanPositions f zonesOf eps).flatMap (queuedAt recsOf) := by
  rw [deleteEndpointLoop_records_of_pure client f zonesOf recsOf hz hr eps s]
  unfold scanPositions
  rw [List.flatMap_assoc]
  apply congrArg
  funext ep
  rw [List.flatMap_map]
  rfl

theorem queued_key_injective (recsOf : String → String → List Record)
    (hown : ∀ zoneName name, ∀ r ∈ recsOf zoneName name, r.ZoneName = zoneName ∧ r.Name = name)
    (hid : ∀ zoneName n₁ n₂, ∀ r₁ ∈ recsOf zoneName n₁, ∀ r₂ ∈ recsOf zoneName n₂,
      r₁.Identifier = r₂.Identifier → r₁ = r₂)
    (positions : List (Endpoint × Zone)) :
    ∀ x ∈ positions.flatMap (queuedAt recsOf), ∀ y ∈ positions.flatMap (queuedAt recsOf),
      (x.ZoneName, x.Identifier) = (y.ZoneName, y.Identifier) → x = y := by
  intro x hx y hy hkey
  obtain ⟨a, _, hxa⟩ := List.mem_flatMap.1 hx
  obtain ⟨b, _, hyb⟩ := List.mem_flatMap.1 hy
  have hx' := (List.mem_filter.1 hxa).1
  have hy' := (List.mem_filter.1 hyb).1
  obtain ⟨hzone, hident⟩ := Prod.mk.inj hkey
  have hzz : a.2.Name = b.2.Name := by
    rw [← (hown _ _ x hx').1, ← (hown _ _ y hy').1, hzone]
  rw [← hzz] at hy'
  exact hid _ _ _ x hx' y hy' hident

theorem queuedAt_nodup (recsOf : String → String → List Record)
    (hnodup : ∀ zoneName name, (recsOf zoneName name).Nodup) (position : Endpoint × Zone) :
    (queuedAt recsOf position).Nodup :=
  (hnodup _ _).sublist (List.filter_sublist _)

theorem queuedAt_disjoint_of_not_overlap (recsOf : String → String → List Record)
    (hown : ∀ zoneName name, ∀ r ∈ recsOf zoneName name, r.ZoneName = zoneName ∧ r.Name = name)
    (a b : Endpoint × Zone) (h : ¬ Overlap a b) :
    List.Disjoint (queuedAt recsOf a) (queuedAt recsOf b) := by
  intro x hxa hxb
  apply h
  unfold queuedAt at hxa hxb
  rw [matchingRecords_eq_filter, List.mem_filter] at hxa hxb
  obtain ⟨hma, hca⟩ := hxa
  obtain ⟨hmb, hcb⟩ := hxb
  have hca' := of_decide_eq_true hca
  have hcb' := of_decide_eq_true hcb
  obtain ⟨hza, hna⟩ := hown _ _ x hma
  obtain ⟨hzb, hnb⟩ := hown _ _ x hmb
  exact ⟨hza.symm.trans hzb, hna.symm.trans hnb, hca'.1.symm.trans hcb'.1,
    x.RData, hca'.2, hcb'.2⟩

/-- C14 (as amended). Each record lookup queues every fetched record at most once, whatever the
number of targets equal to its `RData`: the queued records are a sublist of the fetched ones.
For a client whose calls all succeed, whose lookups answer `zonesOf` and `recsOf` in every state,
whose record lookups return each record once and only records of the zone and name asked for,
and whose records have distinct identifiers within a zone, the `DeleteRecord` calls of
`ApplyChanges` contain no (zone name, record identifier) pair twice exactly when no record is
queued at two scan positions; that is so, in particular, when no two scan positions ask for the
same zone name and relative name for endpoints of the same record type that share a target. -/
theorem ApplyChanges_no_repeated_delete_iff_no_record_queued_twice {σ : Type} (p : Provider σ)
    (changes : Changes) (s : σ) (toCreate toDelete : List Endpoint)
    (zonesOf : String → List Zone) (recsOf : String → String → List Record)
    (hsets : GetCreateDeleteSetsFromChanges changes = some (toCreate, toDelete))
    (hsucc : p.client.AllSucceed)
    (hz : ∀ domainName s',
      (p.client.GetZonesByDomainName domainName s').1 = .ok (zonesOf domainName))
    (hr : ∀ zoneName name s',
      (p.client.GetRecordsByZoneNameAndName zoneName name s').1 = .ok (recsOf zoneName name))
    (hown : ∀ zoneName name, ∀ r ∈ recsOf zoneName name, r.ZoneName = zoneName ∧ r.Name = name)
    (hnodup : ∀ zoneName name, (recsOf zoneName name).Nodup)
    (hid : ∀ zoneName n₁ n₂, ∀ r₁ ∈ recsOf zoneName n₁, ∀ r₂ ∈ recsOf zoneName n₂,
      r₁.Identifier = r₂.Identifier → r₁ = r₂) :
    (∀ (ep : Endpoint) (records : List Record), (matchingRecords ep records).Sublist records) ∧
    ∃ r, p.ApplyChanges changes s = some r ∧
      ((deleteCalls r.calls).Nodup ↔
        (scanPositions p.domainFilter zonesOf toDelete).Pairwise fun a b =>
          ∀ record ∈ queuedAt recsOf a, record ∉ queuedAt recsOf b) ∧
      ((scanPositions p.domainFilter zonesOf toDelete).Pairwise (fun a b => ¬ Overlap a b) →
        (deleteCalls r.calls).Nodup) := by
  refine ⟨fun ep records => List.filter_sublist _, ?_⟩
  have hdel := deleteRecords_of_succeed p.client hsucc.2.2.2.2.1
    (deleteEndpointLoop p.client p.domainFilter toDelete s).records
    (deleteEndpointLoop p.client p.domainFilter toDelete s).state
  have hok : (deletePhase p toDelete s).err = none := hdel.2
  have hscan := deleteEndpointLoop_calls_no_mutation p.client p.domainFilter toDelete s
  have hcre := createEndpointLoop_calls_no_mutation p.client p.domainFilter toCreate
    (deletePhase p toDelete s).state
  have hcr := createRecords_calls_no_delete p.client
    (createEndpointLoop p.client p.domainFilter toCreate
      (deletePhase p toDelete s).state).records
    (createEndpointLoop p.client p.domainFilter toCreate
      (deletePhase p toDelete s).state).state
  have hcalls : deleteCalls ((deletePhase p toDelete s).calls ++
      (createPhase p toCreate (deletePhase p toDelete s).state).calls) =
      ((scanPositions p.domainFilter zonesOf toDelete).flatMap (queuedAt recsOf)).map
        fun queued => (queued.ZoneName, queued.Identifier) := by
    have h₁ : deleteCalls (deletePhase p toDelete s).calls =
        (deleteEndpointLoop p.client p.domainFilter toDelete s).records.map
          fun queued => (queued.ZoneName, queued.Identifier) := by
      simp only [deletePhase, deleteCalls_append, hscan.1, hdel.1,
        deleteCalls_map_DeleteRecord, List.nil_append]
    have h₂ : deleteCalls (createPhase p toCreate (deletePhase p toDelete s).state).calls
        = [] := by
      simp only [createPhase, deleteCalls_append, hcre.1, hcr, List.append_nil]
    rw [deleteCalls_append, h₁, h₂, List.append_nil,
      scan_records_eq_flatMap_queuedAt p.client p.domainFilter zonesOf recsOf hz hr]
  have hiff : (((scanPositions p.domainFilter zonesOf toDelete).flatMap (queuedAt recsOf)).map
        fun queued => (queued.ZoneName, queued.Identifier)).Nodup ↔
      (scanPositions p.domainFilter zonesOf toDelete).Pairwise fun a b =>
        ∀ record ∈ queuedAt recsOf a, record ∉ queuedAt recsOf b := by
    constructor
    · intro h
      exact (List.nodup_flatMap.1 (List.Nodup.of_map _ h)).2.imp
        fun hdisj record ha hb => hdisj ha hb
    · intro h
      apply List.Nodup.map_on (queued_key_injective recsOf hown hid _)
      exact List.nodup_flatMap.2 ⟨fun a _ => queuedAt_nodup recsOf hnodup a,
        h.imp fun hab record ha hb => hab record ha hb⟩
  refine ⟨_, ApplyChanges_eq_phases p changes s toCreate toDelete hsets hok, ?_, ?_⟩
  · show (deleteCalls ((deletePhase p toDelete s).calls ++
        (createPhase p toCreate (deletePhase p toDelete s).state).calls)).Nodup ↔ _
    rw [hcalls]
    exact hiff
  · intro hno
    show (deleteCalls ((deletePhase p toDelete s).calls ++
        (createPhase p toCreate (deletePhase p toDelete s).state).calls)).Nodup
    rw [hcalls]
    exact hiff.2 (hno.imp fun hab record ha hb =>
      queuedAt_disjoint_of_not_overlap recsOf hown _ _ hab ha hb)

theorem scenarioZoneRecords_zone (zoneName : String) :
    ∀ r ∈ scenarioZoneRecords zoneName, r.ZoneName = zoneName := by
  intro r hr
  unfold scenarioZoneRecords at hr
  split at hr
  · rename_i hz
    simp only [List.mem_cons, List.mem_singleton, List.not_mem_nil, or_false] at hr
    rcases hr with rfl | rfl | rfl <;> exact hz.symm
  · simp at hr

theorem scenarioZoneRecords_nodup (zoneName : String) : (scenarioZoneRecords zoneName).Nodup := by
  unfold scenarioZoneRecords
  split
  · decide
  · exact List.nodup_nil

theorem scenarioZoneRecords_distinct_identifiers (zoneName : String) :
    ∀ r₁ ∈ scenarioZoneRecords zoneName, ∀ r₂ ∈ scenarioZoneRecords zoneName,
      r₁.Identifier = r₂.Identifier → r₁ = r₂ := by
  intro r₁ h₁ r₂ h₂ hid
  by_cases hz : zoneName = "de"
  · simp only [scenarioZoneRecords, hz, if_true, List.mem_cons, List.mem_singleton,
      List.not_mem_nil, or_false] at h₁ h₂
    rcases h₁ with rfl | rfl | rfl <;> rcases h₂ with rfl | rfl | rfl <;>
      first | rfl | exact absurd hid (by decide)
  · simp [scenarioZoneRecords, hz] at h₁

theorem ApplyChanges_no_repeated_delete_iff_no_record_queued_twice_witness :
    ∃ r, (scenarioProvider noDomainFilter).ApplyChanges
        { Create := [], UpdateOld := [], UpdateNew := [],
          Delete := [aDe ["1.2.3.4", "1.2.3.4"], aDe ["9.9.9.9"], aDeTxt] } () = some r ∧
      (deleteCalls r.calls).Nodup :=
  let ⟨r, hrun, _, hno⟩ :=
    (ApplyChanges_no_repeated_delete_iff_no_record_queued_twice (scenarioProvider noDomainFilter)
      { Create := [], UpdateOld := [], UpdateNew := [],
        Delete := [aDe ["1.2.3.4", "1.2.3.4"], aDe ["9.9.9.9"], aDeTxt] } ()
      [] [aDe ["1.2.3.4", "1.2.3.4"], aDe ["9.9.9.9"], aDeTxt]
      (fun domainName => [(⟨"de"⟩ : Zone)].filter fun zone => HasSuffix domainName zone.Name)
      (fun zoneName name =>
        (scenarioZoneRecords zoneName).filter fun record => record.Name == name)
      rfl (mockDNSClient_AllSucceed _ _ _) (fun _ _ => rfl) (fun _ _ _ => rfl)
      (fun zoneName name r hr =>
        ⟨scenarioZoneRecords_zone zoneName r (List.mem_filter.1 hr).1,
          eq_of_beq (List.mem_filter.1 hr).2⟩)
      (fun zoneName _ => (scenarioZoneRecords_nodup zoneName).filter _)
      (fun zoneName _ _ r₁ h₁ r₂ h₂ hid =>
        scenarioZoneRecords_distinct_identifiers zoneName r₁ (List.mem_filter.1 h₁).1
          r₂ (List.mem_filter.1 h₂).1 hid)).2
  ⟨r, hrun, hno (by decide)⟩

theorem ApplyChanges_same_name_distinct_matches_example :
    (scenarioProvider noDomainFilter).ApplyChanges
        { Create := [], UpdateOld := [], UpdateNew := [],
          Delete := [aDe ["1.2.3.4", "1.2.3.4"], aDe ["9.9.9.9"], aDeTxt] } () =
      some ⟨(), [Call.GetZonesByDomainName "a.de", Call.GetRecordsByZoneNameAndName "de" "a",
        Call.GetZonesByDomainName "a.de", Call.GetRecordsByZoneNameAndName "de" "a",
        Call.GetZonesByDomainName "a.de", Call.GetRecordsByZoneNameAndName "de" "a",
        Call.DeleteRecord "de" "0", Call.DeleteRecord "de" "1", Call.DeleteRecord "de" "2"],
        none⟩ := by
  rfl

theorem ApplyChanges_duplicate_target_example :
    (scenarioProvider noDomainFilter).ApplyChanges
        { Create := [], UpdateOld := [], UpdateNew := [],
          Delete := [aDe ["1.2.3.4", "1.2.3.4", "9.9.9.9"]] } () =
      some ⟨(), [Call.GetZonesByDomainName "a.de", Call.GetRecordsByZoneNameAndName "de" "a",
        Call.DeleteRecord "de" "0", Call.DeleteRecord "de" "1"], none⟩ := by
  rfl

/-- C14 (the claim as stated fails). All calls of the client succeed and the records of zone
`de` have distinct identifiers; the delete-list names the endpoint `a.de` twice, the record `0`
is fetched and queued once per entry, and `DeleteRecord("de", "0")` is issued twice. -/
theorem ApplyChanges_repeated_delete_counterexample :
    (scenarioProvider noDomainFilter).client.AllSucceed ∧
    ((scenarioZoneRecords "de").map fun r => r.Identifier).Nodup ∧
    ∃ r, (scenarioProvider noDomainFilter).ApplyChanges
        { Create := [], UpdateOld := [], UpdateNew := [],
          Delete := [aDe ["1.2.3.4"], aDe ["1.2.3.4"]] } () = some r ∧
      deleteCalls r.calls = [("de", "0"), ("de", "0")] ∧
      ¬ (deleteCalls r.calls).Nodup :=
  ⟨mockDNSClient_AllSucceed _ _ _, by decide, _, rfl, rfl, by decide⟩

/-! ## Claims on the zone listing, the round trip and deletion safety -/

theorem getZonesLoop_of_decoded (zones : List Zone) :
    ∀ (count : Nat) (zone : Zone),
      getZonesLoop (zones.map Except.ok) count zone =
        .ok (count + zones.length, zones.getLastD zone) := by
  induction zones with
  | nil => intro count zone; rfl
  | cons z rest ih =>
    intro count zone
    simp only [List.map_cons, getZonesLoop, ih, List.length_cons, List.getLastD_cons]
    congr 2
    omega

/-- C16 (the code departs from the claim). `GetZones` appends the address of the one variable
`zone` for every listed zone, so when `n` zones decode without error the result has length `n`
but every element is the zone decoded last: a listing of `a.de` and `de` comes back as `de`,
`de`. -/
theorem GetZones_returns_last_zone_at_every_position :
    (∀ zones : List Zone, DNSClient.GetZones (.ok (zones.map Except.ok)) =
      .ok (List.replicate zones.length (zones.getLastD { Name := "" }))) ∧
    DNSClient.GetZones (.ok [.ok ⟨"a.de"⟩, .ok ⟨"de"⟩]) = .ok [⟨"de"⟩, ⟨"de"⟩] := by
  refine ⟨?_, rfl⟩
  intro zones
  simp only [DNSClient.GetZones, getZonesLoop_of_decoded, Nat.zero_add]

theorem GetZonesByDomainName_after_GetZones_example :
    DNSClient.GetZonesByDomainName SliceSorter.insertion
        (DNSClient.GetZones (.ok [.ok ⟨"a.de"⟩, .ok ⟨"de"⟩])) "x.a.de" =
      .ok [⟨"de"⟩, ⟨"de"⟩] := by
  rfl

theorem TrimSuffix_append (name suffix : String) : TrimSuffix (name ++ suffix) suffix = name := by
  have hs : HasSuffix (name ++ suffix) suffix = true := by
    rw [HasSuffix_iff, String.data_append]
    exact List.suffix_append _ _
  unfold TrimSuffix
  rw [if_pos hs, String.data_append, List.length_append, Nat.add_sub_cancel, List.take_left]

/-- C17 (the code departs from the claim). The record that `ApplyChanges` builds for the apex
endpoint `de` in the zone `de` keeps the whole name `de` as its relative name, because `de` does
not end in `.de`; `recordToEndpoint` maps it to `de.de`, not back to `de`. The same happens for
`xde`, whose name ends in `de` without a dot before it: it comes back as `xde.de`. -/
theorem create_then_project_loses_apex_name :
    HasSuffix apexDe.DNSName "de" = true ∧
    (recordsForEndpoint apexDe ⟨"de"⟩).map recordToEndpoint =
      [{ DNSName := "de.de", Targets := ["1.2.3.4"], RecordType := "A", RecordTTL := 300 }] ∧
    HasSuffix xDe.DNSName "de" = true ∧
    (recordsForEndpoint xDe ⟨"de"⟩).map recordToEndpoint =
      [{ DNSName := "xde.de", Targets := ["1.2.3.4"], RecordType := "A", RecordTTL := 300 }] := by
  decide

/-- What the create path and `recordToEndpoint` do for a name below the zone: when the DNS name
is `label + "." + zone name` with a label other than `""` and `"@"`, every record built for the
endpoint is projected back to the endpoint's name, type and TTL with its one target. -/
theorem create_then_project_round_trip_below_zone (e : Endpoint) (zone : Zone) (label : String)
    (hname : e.DNSName = label ++ ("." ++ zone.Name))
    (hlabel : label ≠ "@" ∧ label ≠ "") :
    (recordsForEndpoint e zone).map recordToEndpoint =
      e.Targets.map fun target =>
        { DNSName := e.DNSName, Targets := [target], RecordType := e.RecordType,
          RecordTTL := e.RecordTTL } := by
  have htrim : TrimSuffix e.DNSName ("." ++ zone.Name) = label := by
    rw [hname, TrimSuffix_append]
  have hor : ¬ (label = "@" ∨ label = "") := fun h => h.elim hlabel.1 hlabel.2
  simp only [recordsForEndpoint, List.map_map, htrim]
  apply List.map_congr_left
  intro target _
  simp only [Function.comp, recordToEndpoint, hor, if_false, hname, String.append_assoc]

theorem create_then_project_round_trip_below_zone_example :
    (recordsForEndpoint (aDe ["1.2.3.4", "5.6.7.8"]) ⟨"de"⟩).map recordToEndpoint =
      [aDe ["1.2.3.4"], aDe ["5.6.7.8"]] :=
  create_then_project_round_trip_below_zone (aDe ["1.2.3.4", "5.6.7.8"]) ⟨"de"⟩ "a" rfl
    (by decide)

theorem deDeZoneRecords_own (zoneName name : String) :
    ∀ r ∈ (deDeZoneRecords zoneName).filter (fun record => record.Name == name),
      r.ZoneName = zoneName ∧ r.Name = name := by
  intro r hr
  obtain ⟨hm, hn⟩ := List.mem_filter.1 hr
  refine ⟨?_, eq_of_beq hn⟩
  by_cases hz : zoneName = "de"
  · simp only [deDeZoneRecords, hz, if_true, List.mem_singleton] at hm
    rw [hm, hz]
  · simp [deDeZoneRecords, hz] at hm

/-- C18 (the code departs from the claim). The client returns only zones whose name is a suffix
of the name asked for and only records of the zone and name asked for. Deleting the apex
endpoint `de` looks up the relative name `de` in zone `de` and deletes the record found there,
whose fully-qualified name is `de.de`: no delete-list endpoint has that name. -/
theorem ApplyChanges_deletes_record_of_another_name :
    (∀ domainName s, ∀ zones,
      ((mockDNSClient none [] deDeZoneRecords [⟨"de"⟩]).GetZonesByDomainName domainName s).1 =
        .ok zones → ∀ zone ∈ zones, zone.Name.data <:+ domainName.data) ∧
    (∀ zoneName name s, ∀ records,
      ((mockDNSClient none [] deDeZoneRecords [⟨"de"⟩]).GetRecordsByZoneNameAndName
        zoneName name s).1 = .ok records →
      ∀ r ∈ records, r.ZoneName = zoneName ∧ r.Name = name) ∧
    ∃ r, Provider.ApplyChanges ⟨mockDNSClient none [] deDeZoneRecords [⟨"de"⟩], noDomainFilter⟩
        { Create := [], UpdateOld := [], UpdateNew := [], Delete := [apexDe] } () = some r ∧
      r.calls = [Call.GetZonesByDomainName "de", Call.GetRecordsByZoneNameAndName "de" "de",
        Call.DeleteRecord "de" "9"] ∧
      deDeZoneRecords "de" = [⟨"9", "de", "de", "A", 300, "1.2.3.4"⟩] ∧
      (recordToEndpoint ⟨"9", "de", "de", "A", 300, "1.2.3.4"⟩).DNSName = "de.de" ∧
      ∀ ep ∈ [apexDe], ep.DNSName ≠ "de.de" := by
  refine ⟨?_, ?_, _, rfl, rfl, rfl, by decide, by decide⟩
  · intro domainName s zones hz zone hzone
    have hz' : zones = [(⟨"de"⟩ : Zone)].filter fun zone => HasSuffix domainName zone.Name :=
      (Except.ok.inj hz).symm
    rw [hz'] at hzone
    exact (HasSuffix_iff _ _).1 (List.mem_filter.1 hzone).2
  · intro zoneName name s records hr r hmem
    have hr' : records = (deDeZoneRecords zoneName).filter fun record => record.Name == name :=
      (Except.ok.inj hr).symm
    rw [hr'] at hmem
    exact deDeZoneRecords_own zoneName name r hmem

theorem mem_deleteZoneLoop_records {σ : Type} (client : DNSService σ) (ep : Endpoint)
    (r : Record) (zones : List Zone) :
    ∀ s, r ∈ (deleteZoneLoop client ep zones s).records →
      ∃ zone ∈ zones, ∃ s' records,
        (client.GetRecordsByZoneNameAndName zone.Name
          (TrimSuffix ep.DNSName ("." ++ zone.Name)) s').1 = .ok records ∧
        r ∈ matchingRecords ep records := by
  induction zones with
  | nil => intro s h; simp [deleteZoneLoop] at h
  | cons zone rest ih =>
    intro s h
    simp only [deleteZoneLoop] at h
    split at h
    · simp at h
    · rename_i records hres
      rcases List.mem_append.1 h with h | h
      · exact ⟨zone, List.mem_cons_self _ _, s, records, hres, h⟩
      · obtain ⟨z, hz, s', records', h1, h2⟩ := ih _ h
        exact ⟨z, List.mem_cons_of_mem _ hz, s', records', h1, h2⟩

theorem mem_deleteEndpointLoop_records {σ : Type} (client : DNSService σ) (f : DomainFilter)
    (r : Record) (eps : List Endpoint) :
    ∀ s, r ∈ (deleteEndpointLoop client f eps s).records →
      ∃ ep ∈ eps, f.passes ep.DNSName ∧ ∃ s₁ zones,
        (client.GetZonesByDomainName ep.DNSName s₁).1 = .ok zones ∧
        ∃ zone ∈ zones, ∃ s₂ records,
          (client.GetRecordsByZoneNameAndName zone.Name
            (TrimSuffix ep.DNSName ("." ++ zone.Name)) s₂).1 = .ok records ∧
          r ∈ matchingRecords ep records := by
  induction eps with
  | nil => intro s h; simp [deleteEndpointLoop] at h
  | cons ep rest ih =>
    intro s h
    simp only [deleteEndpointLoop] at h
    split at h
    · obtain ⟨ep', hep', hrest⟩ := ih _ h
      exact ⟨ep', List.mem_cons_of_mem _ hep', hrest⟩
    · rename_i hskip
      have hskip' : f.skips ep.DNSName = false := by simpa using hskip
      split at h
      · simp at h
      · rename_i zones hres
        rcases List.mem_append.1 h with h | h
        · obtain ⟨zone, hzone, s₂, records, h1, h2⟩ :=
            mem_deleteZoneLoop_records client ep r zones _ h
          exact ⟨ep, List.mem_cons_self _ _, (DomainFilter.skips_eq_false_iff _ _).1 hskip',
            s, zones, hres, zone, hzone, s₂, records, h1, h2⟩
        · obtain ⟨ep', hep', hrest⟩ := ih _ h
          exact ⟨ep', List.mem_cons_of_mem _ hep', hrest⟩

theorem mem_deleteCalls_deleteRecords {σ : Type} (client : DNSService σ)
    (pair : String × String) (records : List Record) :
    ∀ s, pair ∈ deleteCalls (deleteRecords client records s).calls →
      ∃ r ∈ records, (r.ZoneName, r.Identifier) = pair := by
  induction records with
  | nil => intro s h; simp [deleteRecords, deleteCalls] at h
  | cons record rest ih =>
    intro s h
    simp only [deleteRecords] at h
    split at h
    · simp only [deleteCalls, List.mem_singleton] at h
      exact ⟨record, List.mem_cons_self _ _, h.symm⟩
    · simp only [deleteCalls, List.mem_cons] at h
      rcases h with h | h
      · exact ⟨record, List.mem_cons_self _ _, h.symm⟩
      · obtain ⟨r, hr, hp⟩ := ih _ h
        exact ⟨r, List.mem_cons_of_mem _ hr, hp⟩

theorem ApplyChanges_deleteCalls {σ : Type} (p : Provider σ) (changes : Changes) (s : σ)
    (toCreate toDelete : List Endpoint)
    (hsets : GetCreateDeleteSetsFromChanges changes = some (toCreate, toDelete)) :
    ∃ r, p.ApplyChanges changes s = some r ∧
      deleteCalls r.calls = deleteCalls (deleteRecords p.client
        (deleteEndpointLoop p.client p.domainFilter toDelete s).records
        (deleteEndpointLoop p.client p.domainFilter toDelete s).state).calls := by
  have hscan := deleteEndpointLoop_calls_no_mutation p.client p.domainFilter toDelete s
  cases herr : (deleteRecords p.client
      (deleteEndpointLoop p.client p.domainFilter toDelete s).records
      (deleteEndpointLoop p.client p.domainFilter toDelete s).state).err with
  | some err =>
    refine ⟨_, ApplyChanges_of_delete_error p changes s toCreate toDelete err hsets herr, ?_⟩
    simp only [deleteCalls_append, hscan.1, List.nil_append]
  | none =>
    refine ⟨_, ApplyChanges_of_delete_ok p changes s toCreate toDelete hsets herr, ?_⟩
    simp only [deleteCalls_append, hscan.1, List.nil_append,
      (createEndpointLoop_calls_no_mutation p.client p.domainFilter toCreate _).1,
      createRecords_calls_no_delete, List.append_nil]

/-- What the delete path does for names below their zone: when record lookups return only
records of the zone and name asked for, and every passing delete-list endpoint has, for each of
its candidate zones, a DNS name `label + "." + zone name` with a label other than `""` and
`"@"`, every `DeleteRecord` call of `ApplyChanges` is for a record whose fully-qualified name is
the DNS name of a passing delete-list endpoint (an entry of `Delete` or the old half of a
changed update pair) and which has that endpoint's type and one of its targets. -/
theorem ApplyChanges_deletes_only_named_records_below_zone {σ : Type} (p : Provider σ)
    (changes : Changes) (s : σ)
    (hlen : changes.UpdateOld.length = changes.UpdateNew.length)
    (hrecs : ∀ zoneName name s' records,
      (p.client.GetRecordsByZoneNameAndName zoneName name s').1 = .ok records →
      ∀ r ∈ records, r.ZoneName = zoneName ∧ r.Name = name)
    (hbelow : ∀ ep, (ep ∈ changes.Delete ∨
        ∃ new, (ep, new) ∈ changedPairs changes.UpdateOld changes.UpdateNew) →
      p.domainFilter.passes ep.DNSName → ∀ s' zones,
      (p.client.GetZonesByDomainName ep.DNSName s').1 = .ok zones →
      ∀ zone ∈ zones, ∃ label, ep.DNSName = label ++ ("." ++ zone.Name) ∧
        label ≠ "@" ∧ label ≠ "") :
    ∃ r, p.ApplyChanges changes s = some r ∧
      ∀ pair ∈ deleteCalls r.calls, ∃ record, (record.ZoneName, record.Identifier) = pair ∧
        ∃ ep, (ep ∈ changes.Delete ∨
            ∃ new, (ep, new) ∈ changedPairs changes.UpdateOld changes.UpdateNew) ∧
          p.domainFilter.passes ep.DNSName ∧
          (recordToEndpoint record).DNSName = ep.DNSName ∧
          record.Type_ = ep.RecordType ∧ record.RData ∈ ep.Targets := by
  have hsets := updateLoop_eq changes.UpdateOld changes.UpdateNew changes.Create
    changes.Delete hlen
  obtain ⟨r, hrun, hcalls⟩ := ApplyChanges_deleteCalls p changes s _ _ hsets
  refine ⟨r, hrun, ?_⟩
  intro pair hpair
  rw [hcalls] at hpair
  obtain ⟨record, hqueued, hkey⟩ := mem_deleteCalls_deleteRecords p.client pair _ _ hpair
  obtain ⟨ep, hep, hpass, s₁, zones, hz, zone, hzone, s₂, records, hr, hmatch⟩ :=
    mem_deleteEndpointLoop_records p.client p.domainFilter record _ s hqueued
  have horigin : ep ∈ changes.Delete ∨
      ∃ new, (ep, new) ∈ changedPairs changes.UpdateOld changes.UpdateNew := by
    rcases List.mem_append.1 hep with h | h
    · exact Or.inl h
    · obtain ⟨pr, hpr, rfl⟩ := List.mem_map.1 h
      exact Or.inr ⟨pr.2, hpr⟩
  obtain ⟨label, hname, hat, hempty⟩ := hbelow ep horigin hpass s₁ zones hz zone hzone
  rw [matchingRecords_eq_filter, List.mem_filter] at hmatch
  obtain ⟨hmem, hcond⟩ := hmatch
  have hcond' := of_decide_eq_true hcond
  obtain ⟨hzn, hnm⟩ := hrecs _ _ s₂ records hr record hmem
  have hlabel : record.Name = label := by
    rw [hnm, hname, TrimSuffix_append]
  have hor : ¬ (label = "@" ∨ label = "") := fun h => h.elim hat hempty
  refine ⟨record, hkey, ep, horigin, hpass, ?_, hcond'.1, hcond'.2⟩
  simp only [recordToEndpoint, hlabel, hzn, hname, String.append_assoc]
  rw [if_neg hor]

theorem ApplyChanges_deletes_only_named_records_below_zone_example :
    ∃ r, (scenarioProvider noDomainFilter).ApplyChanges
        { Create := [], UpdateOld := [], UpdateNew := [],
          Delete := [aDe ["1.2.3.4"]] } () = some r ∧
      ∀ pair ∈ deleteCalls r.calls, ∃ record, (record.ZoneName, record.Identifier) = pair ∧
        ∃ ep, (ep ∈ [aDe ["1.2.3.4"]] ∨ ∃ new, (ep, new) ∈ changedPairs [] []) ∧
          noDomainFilter.passes ep.DNSName ∧
          (recordToEndpoint record).DNSName = ep.DNSName ∧
          record.Type_ = ep.RecordType ∧ record.RData ∈ ep.Targets :=
  ApplyChanges_deletes_only_named_records_below_zone (scenarioProvider noDomainFilter)
    { Create := [], UpdateOld := [], UpdateNew := [], Delete := [aDe ["1.2.3.4"]] } () rfl
    (fun zoneName name _ records hr r hmem => by
      have hr' : records =
          (scenarioZoneRecords zoneName).filter fun record => record.Name == name :=
        (Except.ok.inj hr).symm
      rw [hr'] at hmem
      exact ⟨scenarioZoneRecords_zone zoneName r (List.mem_filter.1 hmem).1,
        eq_of_beq (List.mem_filter.1 hmem).2⟩)
    (fun ep hep _ _ zones hz zone hzone => by
      have hep' : ep = aDe ["1.2.3.4"] := by
        rcases hep with h | ⟨new, h⟩
        · simpa using h
        · simp [changedPairs] at h
      subst hep'
      have hz' : zones = [⟨"de"⟩] := (Except.ok.inj hz).symm
      rw [hz', List.mem_singleton] at hzone
      subst hzone
      exact ⟨"a", rfl, by decide, by decide⟩)

end Anexia
